import Mathlib

/-!
Verification development for the LangGraph SQL/RAG agent
(`agent.py`, `sql_tool.py`, `rag_tool.py`).

Strings are modelled as `List Char`.  Python's `str.upper()` is modelled
character-wise on ASCII (the repository only manipulates ASCII SQL text in
the code paths modelled here).  External collaborators (the Ollama LLMs,
psycopg2, sqlparse, ChromaDB) are modelled as oracle parameters, as the
design document specifies them only through their interfaces.
-/

set_option maxHeartbeats 1000000

abbrev Str := List Char

/-- Python whitespace characters, as recognised by `str.split()` / `str.strip()`. -/
def isWs (c : Char) : Bool :=
  c == ' ' || c == '\t' || c == '\n' || c == '\x0d' || c == '\x0b' || c == '\x0c'

/-- ASCII single-character upper-casing, modelling `str.upper()` per character. -/
def upChar (c : Char) : Char :=
  if 'a' ≤ c ∧ c ≤ 'z' then Char.ofNat (c.toNat - 32) else c

/-- `str.upper()` restricted to the ASCII fragment, where Python's case mapping
is character-wise and length-preserving; `upStrFull` below extends it with the
length-expanding mapping of `'ß'`. -/
def upStr (s : Str) : Str := s.map upChar

/-- ASCII single-character lower-casing, modelling `str.lower()` per character. -/
def lowChar (c : Char) : Char :=
  if 'A' ≤ c ∧ c ≤ 'Z' then Char.ofNat (c.toNat + 32) else c

/-- `str.lower()` (ASCII model). -/
def lowStr (s : Str) : Str := s.map lowChar

/-- Does `s` start with `pat`? (`str.startswith`). -/
def startsWithL : Str → Str → Bool
  | _, [] => true
  | [], _ :: _ => false
  | c :: s, p :: ps => c == p && startsWithL s ps

/-- Index of the first occurrence of `pat` in `s` (`str.find`, as an `Option`). -/
def findSub : Str → Str → Option Nat
  | s, pat =>
    match s with
    | [] => if pat.isEmpty then some 0 else none
    | _ :: t => if startsWithL s pat then some 0 else (findSub t pat).map Nat.succ

/-- Substring test (Python's `pat in s`). -/
def hasSub (s pat : Str) : Bool := (findSub s pat).isSome

/-- Drop the longest suffix whose characters satisfy `p`. -/
def dropRW (p : Char → Bool) (s : Str) : Str := (s.reverse.dropWhile p).reverse

/-- `str.strip()` — remove leading and trailing whitespace. -/
def stripStr (s : Str) : Str := (dropRW isWs s).dropWhile isWs

/-- Does `s` end with a `';'`? (`str.endswith(";")`). -/
def endsWithSemi (s : Str) : Bool :=
  match s.getLast? with
  | some c => c == ';'
  | none => false

/-- Fuel-indexed model of `while sql_query.endswith(";"): sql_query = sql_query[:-1].strip()`. -/
def dropSemisFuel : Nat → Str → Str
  | 0, s => s
  | n + 1, s => if endsWithSemi s then dropSemisFuel n (stripStr s.dropLast) else s

/-- The trailing-semicolon-stripping loop; `s.length` fuel suffices because each
iteration shortens the string. -/
def dropSemis (s : Str) : Str := dropSemisFuel s.length s

/-- `str.split()` helper: `cur` is the reversed current word. -/
def splitWsAux : Str → Str → List Str
  | [], cur => if cur.isEmpty then [] else [cur.reverse]
  | c :: t, cur =>
    if isWs c then
      if cur.isEmpty then splitWsAux t [] else cur.reverse :: splitWsAux t []
    else splitWsAux t (c :: cur)

/-- `str.split()` with no argument: maximal runs of non-whitespace. -/
def splitWs (s : Str) : List Str := splitWsAux s []

/-- `" ".join(words)`. -/
def joinWords : List Str → Str
  | [] => []
  | [w] => w
  | w :: ws => w ++ ' ' :: joinWords ws

/-- `" ".join(s.split())` — collapse internal whitespace. -/
def collapseWs (s : Str) : Str := joinWords (splitWs s)

/-- Fuel-indexed model of `str.replace(pat, "")`: repeatedly delete the leftmost
occurrence of `pat`. -/
def removeAllFuel : Nat → Str → Str → Str
  | 0, s, _ => s
  | n + 1, s, pat =>
    match findSub s pat with
    | none => s
    | some i => s.take i ++ removeAllFuel n (s.drop (i + pat.length)) pat

/-- `s.replace(pat, "")` for non-empty `pat`; `s.length` fuel suffices. -/
def removeAll (s pat : Str) : Str := removeAllFuel s.length s pat

def tickSql : Str := '`' :: '`' :: '`' :: 's' :: 'q' :: 'l' :: []
def ticks : Str := '`' :: '`' :: '`' :: []

/-- Lines 559-567 of `agent.py`: remove markdown code fences. -/
def fences (s : Str) : Str :=
  if hasSub s tickSql then
    match findSub s tickSql with
    | some p =>
      match findSub (s.drop (p + 6)) ticks with
      | some e => (s.drop (p + 6)).take e
      | none => s
    | none => s
  else if hasSub s ticks then removeAll (removeAll s tickSql) ticks
  else s

def selectU : Str := 'S' :: 'E' :: 'L' :: 'E' :: 'C' :: 'T' :: []
def nlnl : Str := '\n' :: '\n' :: []
def dotSp : Str := '.' :: ' ' :: []

/-- `str.split("\n")` helper (keeps empty pieces, like Python `split` with an argument). -/
def splitNlAux : Str → Str → List Str
  | [], cur => [cur.reverse]
  | c :: t, cur => if c == '\n' then cur.reverse :: splitNlAux t [] else splitNlAux t (c :: cur)

/-- `str.split("\n")`. -/
def splitNl (s : Str) : List Str := splitNlAux s []

/-- Lines 579-586 of `agent.py`: if the text looks like prose, keep everything from
the first line that starts with `SELECT` (case-insensitive). -/
def proseCut (s : Str) : Str :=
  if hasSub s nlnl || hasSub s dotSp then
    let lines := splitNl s
    match lines.findIdx? (fun l => startsWithL (upStr (stripStr l)) selectU) with
    | some i => joinWords (lines.drop i)
    | none => s
  else s

/-- Lines 589-596 of `agent.py`: ensure the answer starts at the first
(case-insensitive) `SELECT`. -/
def selCut (s : Str) : Str :=
  if startsWithL s selectU then s
  else
    match findSub (upStr s) selectU with
    | some p => s.drop p
    | none => s

/-- `SQLAgent._clean_sql_response` (lines 554-598 of `agent.py`), with the
SELECT-locating step in its ASCII form. -/
def cleanSqlResponse (s : Str) : Str :=
  selCut (proseCut (collapseWs (dropSemis (stripStr (fences (stripStr s))))))

/-- Python's `str.upper()` concatenates the Unicode full uppercase mapping of
each character, and that mapping can expand one character to several.
`upCharFull` is the per-character mapping on the fragment exercised here: on
ASCII it agrees with `upChar`, and `'ß'` (U+00DF) expands to `"SS"`. -/
def upCharFull (c : Char) : Str :=
  if c = 'ß' then 'S' :: 'S' :: [] else [upChar c]

/-- `str.upper()` with the length-expanding full case mapping. -/
def upStrFull (s : Str) : Str := (s.map upCharFull).flatten

/-- Lines 589-596 of `agent.py` with the full case mapping: the index of
`SELECT` found in the upper-cased text slices the original text, so a length
change before the match shifts the cut. -/
def selCutFull (s : Str) : Str :=
  if startsWithL s selectU then s
  else
    match findSub (upStrFull s) selectU with
    | some p => s.drop p
    | none => s

/-- `SQLAgent._clean_sql_response` with the full case mapping in the final
SELECT-locating step. -/
def cleanSqlResponseFull (s : Str) : Str :=
  selCutFull (proseCut (collapseWs (dropSemis (stripStr (fences (stripStr s))))))

/-- Convert a Lean string literal to the `List Char` representation. -/
def lit (s : String) : Str := s.toList

/-- Separator-joined concatenation (`sep.join(parts)`). -/
def joinSep (sep : Str) : List Str → Str
  | [] => []
  | [w] => w
  | w :: ws => w ++ sep ++ joinSep sep ws

/-! ### `sql_tool.py`: validation and execution (`SQLTool.validate_sql`, `SQLTool.execute_query`)

`sqlparse` is an external library; it is modelled as an oracle producing the
statement list, where each statement exposes only what `validate_sql` inspects:
its first non-whitespace non-comment token (`token_first`). -/

inductive TokType | dml | other
deriving DecidableEq

structure SqlToken where
  tt : TokType
  value : Str

structure SqlStmt where
  firstTok : Option SqlToken

/-- The `dangerous_keywords` list of `validate_sql`, in source order. -/
def dangerousKeywords : List Str :=
  [lit "DROP", lit "DELETE", lit "INSERT", lit "UPDATE", lit "ALTER", lit "CREATE", lit "TRUNCATE"]

/-- The `for keyword in dangerous_keywords` loop: first denylisted keyword occurring in `u`. -/
def findDanger (u : Str) : Option Str := dangerousKeywords.find? (fun kw => hasSub u kw)

/-- `SQLTool.validate_sql` (lines 138-182): `none` = valid, `some msg` = invalid.
The Python original returns the pair `(is_valid, error_message)`. -/
def validateSql (parse : Str → Except Str (List SqlStmt)) (q : Str) : Option Str :=
  match parse q with
  | .error e => some (lit "SQL validation error: " ++ e)
  | .ok parsed =>
    match parsed with
    | [] => some (lit "Empty or invalid SQL query")
    | stmt :: rest =>
      match stmt.firstTok with
      | none => some (lit "Query must be a DML statement")
      | some tok =>
        if tok.tt ≠ TokType.dml then some (lit "Query must be a DML statement")
        else if upStr tok.value ≠ selectU then some (lit "Only SELECT queries are allowed")
        else
          match findDanger (upStr q) with
          | some kw => some (lit "Dangerous keyword " ++ kw ++ lit " detected. Only SELECT queries are allowed.")
          | none =>
            if 1 < (stmt :: rest).length then some (lit "Multiple SQL statements are not allowed")
            else none

/-- A cell value in a result row (psycopg2 returns Python values; the kinds that
occur in this schema are strings, integers, booleans and NULL). -/
inductive Val
  | vstr (s : Str)
  | vint (n : Int)
  | vbool (b : Bool)
  | vnull
deriving DecidableEq

/-- Python truthiness of a `Val` (`if title:`). -/
def Val.truthy : Val → Bool
  | .vstr s => !s.isEmpty
  | .vint n => n != 0
  | .vbool b => b
  | .vnull => false

/-- Python `str()` of a `Val`. -/
def Val.toChars : Val → Str
  | .vstr s => s
  | .vint n => (toString n).toList
  | .vbool b => if b then lit "True" else lit "False"
  | .vnull => lit "None"

/-- One psycopg2 interaction of `execute_query` (connect + execute + fetch):
either rows plus an optional cursor description (column names), or an error. -/
inductive DbRun
  | ok (rows : List (List Val)) (description : Option (List Str))
  | pgErr (e : Str)
  | exc (e : Str)

/-- What `SQLTool.execute_query` returns: the success dictionary (query, columns,
rows, row_count) or the failure dictionary (error, query). -/
inductive ExecResult
  | ok (query : Str) (columns : List Str) (rows : List (List Val))
  | fail (err : Str) (query : Str)

def ExecResult.success : ExecResult → Bool
  | .ok .. => true
  | .fail .. => false

def ExecResult.errMsg : ExecResult → Str
  | .ok .. => []
  | .fail e _ => e

/-- `SQLTool.execute_query` (lines 184-247), instrumented with a flag telling
whether the backing store was contacted. -/
def executeQuery (parse : Str → Except Str (List SqlStmt)) (db : Str → DbRun) (q : Str) :
    ExecResult × Bool :=
  match validateSql parse q with
  | some err => (.fail err q, false)
  | none =>
    match db q with
    | .ok rows descr => (.ok q (descr.getD []) rows, true)
    | .pgErr e => (.fail (lit "Database error: " ++ e) q, true)
    | .exc e => (.fail (lit "Unexpected error: " ++ e) q, true)

/-! ### `sql_tool.py`: schema description (`SQLTool.get_database_schema`, lines 32-136) -/

structure ColInfo where
  name : Str
  dataType : Str
  charMaxLen : Option Nat
  isNullable : Str
  colDefault : Option Str

structure TableInfo where
  name : Str
  columns : List ColInfo
  fkeys : List (Str × Str × Str)

/-- One snapshot of the information-schema data the rendering loop reads. -/
abbrev DbData := List TableInfo

/-- The data-type formatting of lines 79-88. -/
def typeStr (c : ColInfo) : Str :=
  if (c.charMaxLen.getD 0 ≠ 0) ∧ c.dataType = lit "character varying" then
    lit "VARCHAR(" ++ (toString (c.charMaxLen.getD 0)).toList ++ lit ")"
  else if c.dataType = lit "integer" then lit "INTEGER"
  else if c.dataType = lit "timestamp without time zone" then lit "TIMESTAMP"
  else if startsWithL c.dataType (lit "numeric") then upStr c.dataType
  else upStr c.dataType

/-- One column definition (lines 90-99). -/
def colDef (c : ColInfo) : Str :=
  let base := lit "  " ++ c.name ++ [' '] ++ typeStr c
  let pk := match c.colDefault with
    | some d => !d.isEmpty && hasSub d (lit "nextval")
    | none => false
  if pk then base ++ lit " PRIMARY KEY"
  else if c.isNullable = lit "NO" then base ++ lit " NOT NULL"
  else base

/-- The `schema_parts` entries contributed by one table (lines 57-124). -/
def tableParts (t : TableInfo) : List Str :=
  (lit "\nCREATE TABLE " ++ t.name ++ lit " (")
    :: joinSep (lit ",\n") (t.columns.map colDef)
    :: lit ");"
    :: t.fkeys.map (fun fk =>
        lit "-- " ++ t.name ++ ['.'] ++ fk.1 ++ lit " can be joined with " ++ fk.2.1 ++ ['.'] ++ fk.2.2)

/-- `"\n".join(schema_parts)` over all tables. -/
def renderSchema (d : DbData) : Str := joinSep ['\n'] (d.map tableParts).flatten

structure SchemaState where
  schemaCache : Option Str

/-- The non-cache-hit path of `get_database_schema`: query the database (one
`Except`-valued snapshot models the whole psycopg2 interaction) and cache the
rendering; on a database error return the message without caching. -/
def computeSchema (st : SchemaState) (d : Except Str DbData) : Str × SchemaState × Bool :=
  match d with
  | .error e => (lit "Error retrieving database schema: " ++ e, st, true)
  | .ok data =>
    let r := renderSchema data
    (r, ⟨some r⟩, true)

/-- `SQLTool.get_database_schema` (lines 32-136), instrumented with a flag telling
whether the database was contacted.  Note `if self.schema_cache:` is Python
truthiness: an empty cached string does not count as a cache hit. -/
def getDatabaseSchema (st : SchemaState) (d : Except Str DbData) : Str × SchemaState × Bool :=
  match st.schemaCache with
  | some c => if c = [] then computeSchema st d else (c, st, false)
  | none => computeSchema st d

/-! ### `rag_tool.py`: exact-key document lookup (`RAGTool.get_document_by_title`)

`RAGTool.search` embeds the query and runs an approximate vector search through
Chroma; both are external services, so `search` is kept as an oracle at the
tool interface.  `get_document_by_title` has repository-level logic (the title
normalisation), so it is embedded over an oracle for `collection.get`. -/

abbrev Meta := List (Str × Str)

inductive ChromaGet
  | found (doc : Str) (meta : Meta)
  | absent
  | raised (e : Str)

inductive GetResult
  | ok (document : Str) (metadata : Meta)
  | fail (err : Str)

/-- `title.replace(" ", "_")`. -/
def normalizeTitle (t : Str) : Str := t.map (fun c => if c == ' ' then '_' else c)

/-- `RAGTool.get_document_by_title` (lines 169-211).  The Python error messages
wrap the title in single quotes; the quotes are omitted here. -/
def getDocumentByTitle (cg : Str → ChromaGet) (title : Str) : GetResult :=
  match cg (normalizeTitle title) with
  | .found d m => .ok d m
  | .absent => .fail (lit "Document " ++ title ++ lit " not found in vector store")
  | .raised e => .fail (lit "Error retrieving document: " ++ e)

/-- What `RAGTool.search` returns: the success dictionary (documents, metadatas,
similarities, count) or the failure dictionary (error plus empty lists). -/
inductive SearchResult
  | ok (documents : List Str) (metadatas : List Meta) (similarities : List ℚ)
  | fail (err : Str)

def SearchResult.metas : SearchResult → List Meta
  | .ok _ ms _ => ms
  | .fail _ => []

def SearchResult.sims : SearchResult → List ℚ
  | .ok _ _ ss => ss
  | .fail _ => []

/-! ### `agent.py`: cosine similarity (`SQLAgent._cosine_similarity`, lines 388-398)

Vector components are modelled as rationals; `math.sqrt` is an abstract function
parameter; Python's `ZeroDivisionError` is modelled by a checked division. -/

def sumProd (v1 v2 : List ℚ) : ℚ := ((v1.zip v2).map (fun p => p.1 * p.2)).sum

def sumSq (v : List ℚ) : ℚ := (v.map (fun a => a * a)).sum

def checkedDiv (a b : ℚ) : Except Str ℚ :=
  if b = 0 then .error (lit "division by zero") else .ok (a / b)

/-- `SQLAgent._cosine_similarity`. -/
def cosineSimilarity (sqrtF : ℚ → ℚ) (v1 v2 : List ℚ) : Except Str ℚ :=
  let dot := sumProd v1 v2
  let m1 := sqrtF (sumSq v1)
  let m2 := sqrtF (sumSq v2)
  if m1 = 0 ∨ m2 = 0 then .ok 0
  else checkedDiv dot (m1 * m2)

/-! ### `agent.py`: the orchestration graph

`AgentState` mirrors the `TypedDict` of lines 18-27; the dict-valued fields are
`Option`s whose `none` models the falsy `{}` initial value, and the string
fields use `[]` for the falsy `""`.  Every node returns the updated state plus
a trace of the subsystem calls it performed; each trace entry also records the
content of `state["error"]` at the moment of the call.  Prompt строка
rendering (the `dedent` templates and `tabulate`) is out of scope per the
design document, so the LLM oracles receive the structured prompt data
instead of a rendered string. -/

/-- A row converted by `dict(zip(columns, row))` (line 616). -/
abbrev RowDict := List (Str × Val)

/-- Insertion into a Python dict: overwrite an existing key, else append. -/
def dictInsert (d : RowDict) (k : Str) (v : Val) : RowDict :=
  if d.any (fun kv => kv.1 == k) then d.map (fun kv => if kv.1 == k then (k, v) else kv)
  else d ++ [(k, v)]

/-- `dict(zip(columns, row))`. -/
def mkDict (cols : List Str) (row : List Val) : RowDict :=
  (cols.zip row).foldl (fun d kv => dictInsert d kv.1 kv.2) []

/-- `state["sql_results"]`: the dict returned by `execute_query`, augmented with
the `results` list of row dictionaries (lines 609-620). -/
structure SqlResults where
  outcome : ExecResult
  results : List RowDict

structure AgentState where
  userQuery : Str
  queryType : Str
  sqlQuery : Str
  sqlResults : Option SqlResults
  ragResults : Option SearchResult
  retrievedDocs : List Str
  formattedResponse : Str
  error : Str

/-- The `initial_state` of `SQLAgent.query` (lines 922-931). -/
def initState (q : Str) : AgentState :=
  ⟨q, [], [], none, none, [], [], []⟩

/-- The subsystems an orchestration run can call. -/
inductive Subsys
  | classifyLLM
  | embedder
  | sqlGen
  | dbExec
  | ragSearch
  | ragGet
  | synth
deriving DecidableEq

/-- One recorded subsystem call: which subsystem, and the value of
`state["error"]` at the moment the call was made. -/
abbrev Call := Subsys × Str

abbrev Trace := List Call

/-- Structured input of the SQL-generation LLM call (the rendered template is
a pure function of these fields, lines 428-437). -/
structure SqlPrompt where
  variant : Str
  userQuery : Str
  schema : Str
  queryType : Str

/-- One block of the synthesis context (lines 644-671): either the SQL query
with its results, or the retrieved-document block. -/
inductive ContextPart
  | sqlPart (sqlQuery : Str) (results : SqlResults)
  | ragPart (docs : List Str) (metas : List Meta) (sims : List ℚ)

/-- Structured input of the synthesis LLM call (lines 676-704). -/
structure SynthPrompt where
  queryType : Str
  userQuery : Str
  contextParts : List ContextPart

/-- The collaborators of one `SQLAgent` instance.  `ragAvailable` models
`self.rag_tool is not None`; `exampleEmbeddings` models
`self.example_embeddings` (insertion-ordered dict); `schemaText` models the
string `get_database_schema` returns inside `_generate_sql` (that method never
raises — on a database error it returns the error text); `execQ` models
`self.sql_tool.execute_query`. -/
structure Oracles where
  ragAvailable : Bool
  useEmbClassifier : Bool
  classifierLLM : Str → Except Str Str
  exampleEmbeddings : List (Str × List (List ℚ))
  embedQuery : Str → Except Str (List ℚ)
  sqrtF : ℚ → ℚ
  schemaText : Str
  sqlModel : Str
  sqlLLM : SqlPrompt → Except Str Str
  execQ : Str → ExecResult
  ragSearch : Str → Nat → SearchResult
  chromaGet : Str → ChromaGet
  convLLM : SynthPrompt → Except Str Str

/-- `SQLAgent._classify_query` (lines 250-327). -/
def classifyQueryNode (o : Oracles) (s : AgentState) : AgentState × Trace :=
  if !o.ragAvailable then ({ s with queryType := lit "SQL" }, [])
  else
    match o.classifierLLM s.userQuery with
    | .ok resp =>
      let r := upStr (stripStr resp)
      let qt :=
        if hasSub r (lit "HYBRID") then lit "HYBRID"
        else if hasSub r (lit "RAG") then lit "RAG"
        else if hasSub r (lit "SQL") then lit "SQL"
        else lit "SQL"
      ({ s with queryType := qt }, [(Subsys.classifyLLM, s.error)])
    | .error _ => ({ s with queryType := lit "SQL" }, [(Subsys.classifyLLM, s.error)])

/-- Python `max(similarities) if similarities else 0.0` (line 365). -/
def maxQ : List ℚ → ℚ
  | [] => 0
  | h :: t => t.foldl max h

/-- Python `max(category_scores, key=category_scores.get)`: the first key of
maximal score in iteration order. -/
def firstMaxKey : List (Str × ℚ) → Str
  | [] => lit "SQL"
  | p :: t => (t.foldl (fun best q => if q.2 > best.2 then q else best) p).1

/-- `SQLAgent._classify_query_embeddings` (lines 329-386).  A failure of the
embedding backend or of a similarity computation lands in the `except` branch
and defaults to SQL. -/
def classifyQueryEmbeddingsNode (o : Oracles) (s : AgentState) : AgentState × Trace :=
  if !o.ragAvailable || o.exampleEmbeddings.isEmpty then ({ s with queryType := lit "SQL" }, [])
  else
    match o.embedQuery s.userQuery with
    | .error _ => ({ s with queryType := lit "SQL" }, [(Subsys.embedder, s.error)])
    | .ok qe =>
      match o.exampleEmbeddings.mapM
          (fun ce => (ce.2.mapM (fun emb => cosineSimilarity o.sqrtF qe emb)).map
            (fun sims => (ce.1, maxQ sims))) with
      | .error _ => ({ s with queryType := lit "SQL" }, [(Subsys.embedder, s.error)])
      | .ok scores => ({ s with queryType := firstMaxKey scores }, [(Subsys.embedder, s.error)])

/-- `SQLAgent._route_query` (lines 400-411). -/
def routeQuery (s : AgentState) : Str :=
  if s.queryType = lit "SQL" then lit "sql"
  else if s.queryType = lit "RAG" then lit "rag"
  else if s.queryType = lit "HYBRID" then lit "hybrid"
  else lit "error"

/-- The model-name sniffing of lines 429-437. -/
def promptVariant (model : Str) : Str :=
  if hasSub (lowStr model) (lit "phi3") then lit "phi3"
  else if hasSub (lowStr model) (lit "sqlcoder") then lit "sqlcoder"
  else lit "default"

/-- `SQLAgent._generate_sql` (lines 413-461). -/
def generateSqlNode (o : Oracles) (s : AgentState) : AgentState × Trace :=
  let prompt : SqlPrompt := ⟨promptVariant o.sqlModel, stripStr s.userQuery, o.schemaText, s.queryType⟩
  match o.sqlLLM prompt with
  | .ok raw =>
    let sq := cleanSqlResponse raw
    let s1 := { s with sqlQuery := sq }
    (if sq = [] then { s1 with error := lit "SQL model returned empty response" } else s1,
     [(Subsys.sqlGen, s.error)])
  | .error e =>
    ({ s with error := lit "Error generating SQL: " ++ e }, [(Subsys.sqlGen, s.error)])

/-- `SQLAgent._execute_sql` (lines 600-632). -/
def executeSqlNode (o : Oracles) (s : AgentState) : AgentState × Trace :=
  let res := o.execQ s.sqlQuery
  let resultsDicts : List RowDict :=
    match res with
    | .ok _ cols rows => if !cols.isEmpty && !rows.isEmpty then rows.map (mkDict cols) else []
    | .fail .. => []
  let s1 := { s with sqlResults := some ⟨res, resultsDicts⟩ }
  (match res with
   | .fail e _ => { s1 with error := e }
   | .ok .. => s1,
   [(Subsys.dbExec, s.error)])

/-- `SQLAgent._check_sql_generation` (lines 734-740). -/
def checkSqlGeneration (s : AgentState) : Str :=
  if s.error ≠ [] then lit "error"
  else if s.sqlQuery ≠ [] then lit "execute"
  else lit "error"

/-- `SQLAgent._check_sql_execution` (lines 742-751). -/
def checkSqlExecution (s : AgentState) : Str :=
  if s.error ≠ [] then lit "error"
  else if (match s.sqlResults with | some r => r.outcome.success | none => false) then
    (if s.queryType = lit "HYBRID" then lit "rag" else lit "format")
  else lit "error"

/-- The `for row in results` loop of `_extract_titles_from_sql_results`
(lines 836-840).  All modelled rows are dicts, so the `isinstance` test holds. -/
def extractTitlesLoop : List RowDict → List Str
  | [] => []
  | row :: rest =>
    match List.lookup (lit "titulo") row with
    | some v => if v.truthy then v.toChars :: extractTitlesLoop rest else extractTitlesLoop rest
    | none => extractTitlesLoop rest

/-- `SQLAgent._extract_titles_from_sql_results` (lines 813-848). -/
def extractTitlesFromSqlResults (s : AgentState) : List Str :=
  match s.sqlResults with
  | none => []
  | some sr =>
    if sr.outcome.success then (if sr.results.isEmpty then [] else extractTitlesLoop sr.results)
    else []

/-- The `for title in titles` loop of `_retrieve_documents_by_titles`
(lines 864-889), accumulating documents, metadata, similarities and the trace. -/
def retrieveByTitlesLoop (o : Oracles) (errAt : Str) :
    List Str → List Str × List Meta × List ℚ × Trace
  | [] => ([], [], [], [])
  | t :: rest =>
    let head : List Str × List Meta × List ℚ × Trace :=
      match getDocumentByTitle o.chromaGet t with
      | .ok d m => ([d], [m], [1], [(Subsys.ragGet, errAt)])
      | .fail _ =>
        match o.ragSearch t 1 with
        | .ok ds ms ss =>
          if !ds.isEmpty then (ds, ms, ss, [(Subsys.ragGet, errAt), (Subsys.ragSearch, errAt)])
          else ([], [], [], [(Subsys.ragGet, errAt), (Subsys.ragSearch, errAt)])
        | .fail _ => ([], [], [], [(Subsys.ragGet, errAt), (Subsys.ragSearch, errAt)])
    let tail := retrieveByTitlesLoop o errAt rest
    (head.1 ++ tail.1, head.2.1 ++ tail.2.1, head.2.2.1 ++ tail.2.2.1, head.2.2.2 ++ tail.2.2.2)

/-- `SQLAgent._retrieve_documents_by_titles` (lines 850-907). -/
def retrieveDocumentsByTitles (o : Oracles) (errAt : Str) (titles : List Str) :
    SearchResult × Trace :=
  let r := retrieveByTitlesLoop o errAt titles
  (if !r.1.isEmpty then .ok r.1 r.2.1 r.2.2.1
   else .fail (lit "No documents found for the specified titles"), r.2.2.2)

/-- `SQLAgent._retrieve_documents` (lines 753-811). -/
def retrieveDocumentsNode (o : Oracles) (s : AgentState) : AgentState × Trace :=
  if !o.ragAvailable then ({ s with error := lit "RAG functionality not available" }, [])
  else
    let rt : SearchResult × Trace :=
      if s.queryType = lit "HYBRID" then
        let titles := extractTitlesFromSqlResults s
        if titles.isEmpty then (o.ragSearch s.userQuery 3, [(Subsys.ragSearch, s.error)])
        else retrieveDocumentsByTitles o s.error titles
      else (o.ragSearch s.userQuery 3, [(Subsys.ragSearch, s.error)])
    let s1 := { s with ragResults := some rt.1 }
    match rt.1 with
    | .ok ds _ _ => ({ s1 with retrievedDocs := ds }, rt.2)
    | .fail e =>
      if s.queryType = lit "RAG" then ({ s1 with error := e }, rt.2)
      else ({ s1 with retrievedDocs := [] }, rt.2)

/-- `SQLAgent._format_response` (lines 634-714).  The context blocks mirror the
`context_parts` list; the rendered prompt is a function of the structured
`SynthPrompt`.  Note that on a synthesis failure the `except` branch
unconditionally overwrites `state["error"]`. -/
def formatResponseNode (o : Oracles) (s : AgentState) : AgentState × Trace :=
  let sqlParts : List ContextPart :=
    match s.sqlResults with
    | some sr => if sr.outcome.success then [ContextPart.sqlPart s.sqlQuery sr] else []
    | none => []
  let ragParts : List ContextPart :=
    if !s.retrievedDocs.isEmpty then
      [ContextPart.ragPart s.retrievedDocs ((s.ragResults.map SearchResult.metas).getD [])
        ((s.ragResults.map SearchResult.sims).getD [])]
    else []
  match o.convLLM ⟨s.queryType, s.userQuery, sqlParts ++ ragParts⟩ with
  | .ok resp => ({ s with formattedResponse := stripStr resp }, [(Subsys.synth, s.error)])
  | .error e =>
    ({ s with error := lit "Error formatting response: " ++ e }, [(Subsys.synth, s.error)])

/-- The apology template of `_handle_error` (lines 716-732), for a single-line
error message (for which `dedent` plus `strip` reduce to this concatenation). -/
def apologyText (msg : Str) : Str :=
  lit "I encountered an error while processing your request:\n\n" ++ lit "❌ " ++ msg ++
    lit "\n\nPlease try rephrasing your question or ask something else."

/-- `SQLAgent._handle_error`.  The dict-get default `"Unknown error occurred"`
never fires because `initial_state` always includes the `error` key. -/
def handleErrorNode (s : AgentState) : AgentState × Trace :=
  ({ s with formattedResponse := apologyText s.error }, [])

/-- The compiled graph of `_build_graph` (lines 195-247) run on one query:
entry `classify_query`, conditional routing via `_route_query`,
`_check_sql_generation` and `_check_sql_execution`, the unconditional edges
`retrieve_documents → format_response`, `format_response → END`,
`handle_error → END`. -/
def runPipeline (o : Oracles) (q : Str) : AgentState × Trace :=
  let s0 := initState q
  let c1 := if o.useEmbClassifier then classifyQueryEmbeddingsNode o s0 else classifyQueryNode o s0
  let s1 := c1.1
  let r := routeQuery s1
  if r = lit "sql" || r = lit "hybrid" then
    let g := generateSqlNode o s1
    if checkSqlGeneration g.1 = lit "execute" then
      let e := executeSqlNode o g.1
      let c := checkSqlExecution e.1
      if c = lit "format" then
        let f := formatResponseNode o e.1
        (f.1, c1.2 ++ g.2 ++ e.2 ++ f.2)
      else if c = lit "rag" then
        let rd := retrieveDocumentsNode o e.1
        let f := formatResponseNode o rd.1
        (f.1, c1.2 ++ g.2 ++ e.2 ++ rd.2 ++ f.2)
      else
        let h := handleErrorNode e.1
        (h.1, c1.2 ++ g.2 ++ e.2 ++ h.2)
    else
      let h := handleErrorNode g.1
      (h.1, c1.2 ++ g.2 ++ h.2)
  else if r = lit "rag" then
    let rd := retrieveDocumentsNode o s1
    let f := formatResponseNode o rd.1
    (f.1, c1.2 ++ rd.2 ++ f.2)
  else
    let h := handleErrorNode s1
    (h.1, c1.2 ++ h.2)

/-- The structured record `SQLAgent.query` returns (lines 936-943). -/
structure QueryResult where
  response : Str
  queryType : Str
  sqlQuery : Str
  results : Option SqlResults
  ragResults : Option SearchResult
  error : Str

/-- `SQLAgent.query`. -/
def runQuery (o : Oracles) (q : Str) : QueryResult × Trace :=
  let f := runPipeline o q
  (⟨f.1.formattedResponse, f.1.queryType, f.1.sqlQuery, f.1.sqlResults, f.1.ragResults, f.1.error⟩,
   f.2)

/-! ### Specification-side definitions

These definitions transcribe the wording of the design document (not the
code); the theorems below compare them with the embedded source functions. -/

/-- Spec wording for title extraction: the string value of the `titulo` column
of every row that has it with a non-falsy value, in row order. -/
def titleExtractionSpec (rows : List RowDict) : List Str :=
  rows.filterMap (fun row =>
    match List.lookup (lit "titulo") row with
    | some v => if v.truthy then some v.toChars else none
    | none => none)

/-- Spec wording for the per-title retrieval step: an exact-key hit contributes
that document; a miss falls back to a top-1 semantic search on the title text. -/
def titleLookupSpecDocs (o : Oracles) (t : Str) : List Str :=
  match getDocumentByTitle o.chromaGet t with
  | .ok d _ => [d]
  | .fail _ =>
    match o.ragSearch t 1 with
    | .ok ds _ _ => ds
    | .fail _ => []

/-- Spec wording for the per-title similarity contributions: an exact-key hit
contributes similarity exactly 1.0; a miss contributes the top-1 search
similarities when it found documents. -/
def titleLookupSpecSims (o : Oracles) (t : Str) : List ℚ :=
  match getDocumentByTitle o.chromaGet t with
  | .ok _ _ => [1]
  | .fail _ =>
    match o.ragSearch t 1 with
    | .ok ds _ ss => if !ds.isEmpty then ss else []
    | .fail _ => []

/-- Spec wording for the per-title subsystem calls: the exact-key lookup comes
first, and the semantic search happens only on a miss. -/
def titleLookupSpecTrace (o : Oracles) (errAt : Str) (t : Str) : Trace :=
  match getDocumentByTitle o.chromaGet t with
  | .ok _ _ => [(Subsys.ragGet, errAt)]
  | .fail _ => [(Subsys.ragGet, errAt), (Subsys.ragSearch, errAt)]

/-! ### Proof-side normal forms for the cleanup transform

`collapseWs` is shown to coincide with mapping whitespace to spaces, squeezing
duplicate spaces, and stripping the ends; the idempotence proof of
`cleanSqlResponse` works with that normal form. -/

/-- Map every whitespace character to a plain space. -/
def wsToSp (c : Char) : Char := if isWs c then ' ' else c

/-- Squeeze runs of spaces down to single spaces. -/
def dedupeSp : Str → Str
  | [] => []
  | [c] => [c]
  | a :: b :: t => if a == ' ' && b == ' ' then dedupeSp (b :: t) else a :: dedupeSp (b :: t)

/-- Strip leading and trailing plain spaces. -/
def stripSp (s : Str) : Str := (dropRW (fun c => c == ' ') s).dropWhile (fun c => c == ' ')

/-- `pat` occurs in `s` at index `i`. -/
def occAt (s pat : Str) (i : Nat) : Prop :=
  ∃ u v, s = u ++ pat ++ v ∧ u.length = i

/-- `pat` occurs somewhere in `s`. -/
def subOf (pat s : Str) : Prop := ∃ u v, s = u ++ pat ++ v

def tickSq5 : Str := '`' :: '`' :: '`' :: 's' :: 'q' :: []

/-- No triple-backtick anywhere: the fence-removal step is then the identity. -/
def tickFree (s : Str) : Prop := ¬ subOf ticks s

/-- The string contains ```` ```sql ````, its first occurrence is the exhibited
one, and no ```` ``` ```` occurs after it: the fence-removal step is then also
the identity (the `end == -1` branch). -/
def wInv (s : Str) : Prop :=
  ∃ u v, s = u ++ tickSql ++ v ∧ ¬ subOf ticks v ∧ ¬ subOf tickSql (u ++ tickSq5)

/-! ### Concrete fixtures for counterexamples and witnesses -/

/-- A baseline oracle assignment used by concrete runs. -/
def oBase : Oracles where
  ragAvailable := true
  useEmbClassifier := false
  classifierLLM := fun _ => .ok (lit "SQL")
  exampleEmbeddings := []
  embedQuery := fun _ => .error (lit "no embedder")
  sqrtF := id
  schemaText := lit "CREATE TABLE t (x INTEGER);"
  sqlModel := lit "sqlcoder:7b"
  sqlLLM := fun _ => .ok (lit "SELECT 1")
  execQ := fun _ => .ok (lit "SELECT 1") [lit "x"] [[Val.vint 1]]
  ragSearch := fun _ _ => .fail (lit "no rag")
  chromaGet := fun _ => .absent
  convLLM := fun _ => .ok (lit "answer")

/-- A run in which the classifier answers RETRIEVAL and the document-store
search fails. -/
def oRagFail : Oracles :=
  { oBase with
    classifierLLM := fun _ => .ok (lit "RAG")
    ragSearch := fun _ _ => .fail (lit "Error searching documents: boom")
    convLLM := fun _ => .ok (lit "I could not find documents.") }

/-- Normal form reached by the cleanup pipeline after the whitespace-collapse
stage: every whitespace character is a plain space, no two spaces are adjacent,
the ends are not whitespace, and the string does not end in a semicolon. -/
def NF (s : Str) : Prop :=
  (∀ c ∈ s, isWs c = true → c = ' ') ∧
  ¬ subOf (' ' :: ' ' :: []) s ∧
  (∀ c, s.head? = some c → isWs c = false) ∧
  (∀ c, s.getLast? = some c → isWs c = false ∧ ¬ c = ';')

/-! ## Theorems -/

/-- C10: the cosine-similarity helper is total — for every pair of vectors it
returns a value (never a division-by-zero failure), and whenever either
magnitude is zero it returns 0.0. -/
theorem c10_cosine_total (sqrtF : ℚ → ℚ) (v1 v2 : List ℚ) :
    (∃ q, cosineSimilarity sqrtF v1 v2 = .ok q) ∧
    (sqrtF (sumSq v1) = 0 ∨ sqrtF (sumSq v2) = 0 → cosineSimilarity sqrtF v1 v2 = .ok 0) := by
  constructor
  · by_cases h : sqrtF (sumSq v1) = 0 ∨ sqrtF (sumSq v2) = 0
    · exact ⟨0, by simp [cosineSimilarity, h]⟩
    · push_neg at h
      refine ⟨sumProd v1 v2 / (sqrtF (sumSq v1) * sqrtF (sumSq v2)), ?_⟩
      have hne : sqrtF (sumSq v1) * sqrtF (sumSq v2) ≠ 0 := mul_ne_zero h.1 h.2
      simp [cosineSimilarity, checkedDiv, h.1, h.2, hne]
  · intro h
    simp [cosineSimilarity, h]

/-- Witness for C10 at a degenerate all-zero embedding. -/
theorem c10_cosine_total_witness :
    cosineSimilarity id [(0 : ℚ), 0] [1, 2] = .ok 0 :=
  (c10_cosine_total id [0, 0] [1, 2]).2 (Or.inl (by simp [sumSq]))

/-- C5: if the retrieval subsystem is unavailable (the RAG tool is absent, or —
for the embedding strategy — the precomputed example embeddings are absent),
classification returns SQL without any backend call, under both strategies. -/
theorem c5_classification_default :
    (∀ (o : Oracles) (s : AgentState), o.ragAvailable = false →
      classifyQueryNode o s = ({ s with queryType := lit "SQL" }, [])) ∧
    (∀ (o : Oracles) (s : AgentState), o.ragAvailable = false ∨ o.exampleEmbeddings = [] →
      classifyQueryEmbeddingsNode o s = ({ s with queryType := lit "SQL" }, [])) := by
  constructor
  · intro o s h
    simp [classifyQueryNode, h]
  · intro o s h
    rcases h with h | h <;> simp [classifyQueryEmbeddingsNode, h]

/-- Witness for C5: an agent with no RAG tool classifies to SQL with an empty
call trace, under either strategy. -/
theorem c5_classification_default_witness :
    classifyQueryNode { oBase with ragAvailable := false } (initState (lit "hola")) =
      ({ initState (lit "hola") with queryType := lit "SQL" }, []) ∧
    classifyQueryEmbeddingsNode oBase (initState (lit "hola")) =
      ({ initState (lit "hola") with queryType := lit "SQL" }, []) :=
  ⟨(c5_classification_default).1 _ _ rfl, (c5_classification_default).2 _ _ (Or.inr rfl)⟩

/-- C7: title extraction equals the specified row-order filter — the `titulo`
value of every row that has it non-falsy — and yields exactly
`["Alpha", "Beta"]` on the example rows of the specification. -/
theorem c7_title_extraction :
    (∀ rows : List RowDict, extractTitlesLoop rows = titleExtractionSpec rows) ∧
    extractTitlesFromSqlResults
      { userQuery := [], queryType := lit "HYBRID", sqlQuery := [],
        sqlResults := some
          ⟨.ok [] [lit "titulo", lit "count"]
              [[Val.vstr (lit "Alpha"), Val.vint 5], [Val.vstr (lit "Beta"), Val.vint 3]],
            [[(lit "titulo", Val.vstr (lit "Alpha")), (lit "count", Val.vint 5)],
             [(lit "titulo", Val.vstr (lit "Beta")), (lit "count", Val.vint 3)],
             [(lit "other", Val.vstr (lit "x"))]]⟩,
        ragResults := none, retrievedDocs := [], formattedResponse := [], error := [] } =
      [lit "Alpha", lit "Beta"] := by
  constructor
  · intro rows
    induction rows with
    | nil => rfl
    | cons row rest ih =>
      simp only [extractTitlesLoop, titleExtractionSpec, List.filterMap_cons] at ih ⊢
      cases h : List.lookup (lit "titulo") row with
      | none => exact ih
      | some v =>
        by_cases ht : v.truthy <;> simp [ht, ih]
  · decide

/-- C9 counterexample: a first call on a schema with no tables computes and
caches the empty rendering, yet a second call recomputes (contacts the
database) and can return different text — so repeated calls are not always
byte-identical to the cached string. -/
theorem c9_counterexample :
    ((getDatabaseSchema ⟨none⟩ (.ok [])).1 = [] ∧
      (getDatabaseSchema ⟨none⟩ (.ok [])).2.1.schemaCache = some []) ∧
    (getDatabaseSchema (getDatabaseSchema ⟨none⟩ (.ok [])).2.1
        (.ok [⟨lit "t", [⟨lit "id", lit "integer", none, lit "NO",
          some (lit "nextval(t_id_seq)")⟩], []⟩])).2.2 = true ∧
    (getDatabaseSchema (getDatabaseSchema ⟨none⟩ (.ok [])).2.1
        (.ok [⟨lit "t", [⟨lit "id", lit "integer", none, lit "NO",
          some (lit "nextval(t_id_seq)")⟩], []⟩])).1 ≠ [] := by
  decide

/-- C9 (amended): once a call leaves a non-empty rendering in the cache, every
subsequent call returns exactly that cached string, with the same state and
without contacting the database (an empty cached rendering, and a failed
first call, do not enjoy this: they trigger recomputation). -/
theorem c9_amended_schema_cache (st : SchemaState) (d₁ d₂ : Except Str DbData) (c : Str)
    (hc : (getDatabaseSchema st d₁).2.1.schemaCache = some c) (hne : c ≠ []) :
    (getDatabaseSchema st d₁).1 = c ∧
    getDatabaseSchema (getDatabaseSchema st d₁).2.1 d₂ =
      (c, (getDatabaseSchema st d₁).2.1, false) := by
  rcases st with ⟨_ | c₀⟩
  · rcases d₁ with e | data
    · exfalso
      simp [getDatabaseSchema, computeSchema] at hc
    · have h1 : getDatabaseSchema (⟨none⟩ : SchemaState) (Except.ok data) =
          (renderSchema data, ⟨some (renderSchema data)⟩, true) := by
        simp [getDatabaseSchema, computeSchema]
      rw [h1] at hc ⊢
      simp only [Option.some.injEq] at hc
      subst hc
      exact ⟨rfl, by simp [getDatabaseSchema, hne]⟩
  · by_cases hc₀ : c₀ = []
    · subst hc₀
      rcases d₁ with e | data
      · have h1 : getDatabaseSchema (⟨some []⟩ : SchemaState) (Except.error e) =
            (lit "Error retrieving database schema: " ++ e, ⟨some []⟩, true) := by
          simp [getDatabaseSchema, computeSchema]
        rw [h1] at hc
        simp only [Option.some.injEq] at hc
        exact absurd hc.symm hne
      · have h1 : getDatabaseSchema (⟨some []⟩ : SchemaState) (Except.ok data) =
            (renderSchema data, ⟨some (renderSchema data)⟩, true) := by
          simp [getDatabaseSchema, computeSchema]
        rw [h1] at hc ⊢
        simp only [Option.some.injEq] at hc
        subst hc
        exact ⟨rfl, by simp [getDatabaseSchema, hne]⟩
    · have h1 : getDatabaseSchema (⟨some c₀⟩ : SchemaState) d₁ = (c₀, ⟨some c₀⟩, false) := by
        simp [getDatabaseSchema, hc₀]
      rw [h1] at hc ⊢
      simp only [Option.some.injEq] at hc
      subst hc
      simp [getDatabaseSchema, hc₀]

/-- Witness for C9 (amended): after a successful first rendering of a one-table
schema, the second call returns the cached text without touching the store. -/
theorem c9_amended_schema_cache_witness :
    (getDatabaseSchema ⟨none⟩
        (.ok [⟨lit "t", [⟨lit "id", lit "integer", none, lit "NO",
          some (lit "nextval(t_id_seq)")⟩], []⟩])).1 =
      renderSchema [⟨lit "t", [⟨lit "id", lit "integer", none, lit "NO",
          some (lit "nextval(t_id_seq)")⟩], []⟩] ∧
    getDatabaseSchema
        (getDatabaseSchema ⟨none⟩
          (.ok [⟨lit "t", [⟨lit "id", lit "integer", none, lit "NO",
            some (lit "nextval(t_id_seq)")⟩], []⟩])).2.1
        (.error (lit "database down")) =
      (renderSchema [⟨lit "t", [⟨lit "id", lit "integer", none, lit "NO",
          some (lit "nextval(t_id_seq)")⟩], []⟩],
        (getDatabaseSchema ⟨none⟩
          (.ok [⟨lit "t", [⟨lit "id", lit "integer", none, lit "NO",
            some (lit "nextval(t_id_seq)")⟩], []⟩])).2.1, false) :=
  c9_amended_schema_cache ⟨none⟩ _ (.error (lit "database down")) _ (by decide) (by decide)

/-- Helper: when validation succeeds, the parse yielded exactly one statement,
its first token is a DML `SELECT`, and no denylisted keyword occurs in the
upper-cased statement text. -/
theorem validateSql_none_conditions (parse : Str → Except Str (List SqlStmt)) (q : Str)
    (h : validateSql parse q = none) :
    ∃ stmt tok, parse q = .ok [stmt] ∧ stmt.firstTok = some tok ∧ tok.tt = TokType.dml ∧
      upStr tok.value = selectU ∧ findDanger (upStr q) = none := by
  cases hp : parse q with
  | error e => exfalso; simp [validateSql, hp] at h
  | ok parsed =>
    cases parsed with
    | nil => exfalso; simp [validateSql, hp] at h
    | cons stmt rest =>
      cases hft : stmt.firstTok with
      | none => exfalso; simp [validateSql, hp, hft] at h
      | some tok =>
        by_cases htt : tok.tt = TokType.dml
        · by_cases hval : upStr tok.value = selectU
          · cases hd : findDanger (upStr q) with
            | some kw => exfalso; simp [validateSql, hp, hft, htt, hval, hd] at h
            | none =>
              cases rest with
              | nil => exact ⟨stmt, tok, rfl, hft, htt, hval, rfl⟩
              | cons s2 r2 => exfalso; simp [validateSql, hp, hft, htt, hval, hd] at h
          · exfalso; simp [validateSql, hp, hft, htt, hval] at h
        · exfalso; simp [validateSql, hp, hft, htt] at h

/-- C4: `execute_query` reaches the backing store only when the statement
parses as exactly one statement whose first keyword is `SELECT` and whose
upper-cased text contains no denylisted keyword; any denylisted keyword
occurring case-insensitively anywhere, and any parse into two or more
statements (as for two semicolon-separated `SELECT`s), is rejected before
execution. -/
theorem c4_sql_validation (parse : Str → Except Str (List SqlStmt)) (db : Str → DbRun) (q : Str) :
    ((executeQuery parse db q).2 = true →
      ∃ stmt tok, parse q = .ok [stmt] ∧ stmt.firstTok = some tok ∧ tok.tt = TokType.dml ∧
        upStr tok.value = selectU ∧ findDanger (upStr q) = none) ∧
    (∀ kw, kw ∈ dangerousKeywords → hasSub (upStr q) kw = true →
      (executeQuery parse db q).2 = false ∧ (executeQuery parse db q).1.success = false) ∧
    (∀ s₁ s₂ rest, parse q = .ok (s₁ :: s₂ :: rest) →
      (executeQuery parse db q).2 = false ∧ (executeQuery parse db q).1.success = false) := by
  refine ⟨?_, ?_, ?_⟩
  · intro hdb
    cases hv : validateSql parse q with
    | none => exact validateSql_none_conditions parse q hv
    | some err =>
      exfalso
      unfold executeQuery at hdb
      rw [hv] at hdb
      exact absurd hdb (by simp)
  · intro kw hmem hsub
    cases hv : validateSql parse q with
    | none =>
      exfalso
      obtain ⟨_, _, _, _, _, _, hd⟩ := validateSql_none_conditions parse q hv
      unfold findDanger at hd
      rw [List.find?_eq_none] at hd
      exact absurd hsub (by simpa using hd kw hmem)
    | some err =>
      unfold executeQuery
      rw [hv]
      exact ⟨rfl, rfl⟩
  · intro s₁ s₂ rest hp
    cases hv : validateSql parse q with
    | none =>
      exfalso
      obtain ⟨stmt, tok, hp', _⟩ := validateSql_none_conditions parse q hv
      rw [hp] at hp'
      simp at hp'
    | some err =>
      unfold executeQuery
      rw [hv]
      exact ⟨rfl, rfl⟩

/-- Witness for C4: a `DROP` statement is rejected without a database call, and
a string parsed into two `SELECT` statements is rejected without a database
call. -/
theorem c4_sql_validation_witness :
    ((executeQuery (fun _ => .ok [⟨some ⟨TokType.other, lit "DROP"⟩⟩]) (fun _ => .pgErr (lit "e"))
        (lit "DROP TABLE users")).2 = false ∧
      (executeQuery (fun _ => .ok [⟨some ⟨TokType.other, lit "DROP"⟩⟩]) (fun _ => .pgErr (lit "e"))
        (lit "DROP TABLE users")).1.success = false) ∧
    ((executeQuery
        (fun _ => .ok [⟨some ⟨TokType.dml, lit "SELECT"⟩⟩, ⟨some ⟨TokType.dml, lit "SELECT"⟩⟩])
        (fun _ => .pgErr (lit "e")) (lit "SELECT 1; SELECT 2")).2 = false ∧
      (executeQuery
        (fun _ => .ok [⟨some ⟨TokType.dml, lit "SELECT"⟩⟩, ⟨some ⟨TokType.dml, lit "SELECT"⟩⟩])
        (fun _ => .pgErr (lit "e")) (lit "SELECT 1; SELECT 2")).1.success = false) :=
  ⟨(c4_sql_validation _ _ _).2.1 (lit "DROP") (by decide) (by decide),
   (c4_sql_validation _ _ _).2.2 _ _ [] rfl⟩

/-- C1 counterexample: on a RETRIEVAL-intent run whose document search fails,
the final error is set, but the answer text is the synthesis output (over an
empty context), not the error-derived apology rendering — the graph has an
unconditional edge `retrieve_documents → format_response`, so the error
handler is never reached from retrieval. -/
theorem c1_counterexample :
    (runPipeline oRagFail (lit "q")).1.error = lit "Error searching documents: boom" ∧
    (runPipeline oRagFail (lit "q")).1.formattedResponse ≠
      apologyText (runPipeline oRagFail (lit "q")).1.error ∧
    (runPipeline oRagFail (lit "q")).1.formattedResponse = lit "I could not find documents." := by
  decide

/-- C1 (amended): on a RETRIEVAL-intent run whose document search fails, the
final result has the error set and no documents (so the answer is not derived
from documents), but the pipeline still proceeds to synthesis — the answer
text is the synthesis output over an empty context, and the error-handler
apology node is never reached. -/
theorem c1_retrieval_failure_flow (o : Oracles) (q cr e r : Str)
    (hrag : o.ragAvailable = true) (hemb : o.useEmbClassifier = false)
    (hcls : o.classifierLLM q = .ok cr)
    (hh : hasSub (upStr (stripStr cr)) (lit "HYBRID") = false)
    (hr : hasSub (upStr (stripStr cr)) (lit "RAG") = true)
    (hsearch : o.ragSearch q 3 = .fail e)
    (hconv : o.convLLM ⟨lit "RAG", q, []⟩ = .ok r) :
    runPipeline o q =
      (⟨q, lit "RAG", [], none, some (.fail e), [], stripStr r, e⟩,
        [(Subsys.classifyLLM, []), (Subsys.ragSearch, []), (Subsys.synth, e)]) := by
  have h1 : classifyQueryNode o (initState q) =
      (⟨q, lit "RAG", [], none, none, [], [], []⟩, [(Subsys.classifyLLM, [])]) := by
    simp [classifyQueryNode, initState, hrag, hcls, hh, hr]
  have h2 : retrieveDocumentsNode o ⟨q, lit "RAG", [], none, none, [], [], []⟩ =
      (⟨q, lit "RAG", [], none, some (.fail e), [], [], e⟩, [(Subsys.ragSearch, [])]) := by
    simp [retrieveDocumentsNode, hrag, hsearch,
      show (lit "RAG" = lit "HYBRID") = False from eq_false (by decide)]
  have h3 : formatResponseNode o ⟨q, lit "RAG", [], none, some (.fail e), [], [], e⟩ =
      (⟨q, lit "RAG", [], none, some (.fail e), [], stripStr r, e⟩, [(Subsys.synth, e)]) := by
    simp [formatResponseNode, hconv]
  simp [runPipeline, hemb, h1, h2, h3, routeQuery,
    show (lit "RAG" = lit "SQL") = False from eq_false (by decide),
    show (lit "RAG" = lit "HYBRID") = False from eq_false (by decide),
    show (lit "rag" = lit "sql") = False from eq_false (by decide),
    show (lit "rag" = lit "hybrid") = False from eq_false (by decide)]

/-- Witness for the amended C1 at the concrete failing-search oracle. -/
theorem c1_retrieval_failure_flow_witness :
    runPipeline oRagFail (lit "q") =
      (⟨lit "q", lit "RAG", [], none,
          some (.fail (lit "Error searching documents: boom")), [],
          stripStr (lit "I could not find documents."),
          lit "Error searching documents: boom"⟩,
        [(Subsys.classifyLLM, []), (Subsys.ragSearch, []),
         (Subsys.synth, lit "Error searching documents: boom")]) :=
  c1_retrieval_failure_flow oRagFail (lit "q") (lit "RAG")
    (lit "Error searching documents: boom") (lit "I could not find documents.")
    rfl rfl rfl (by decide) (by decide) rfl rfl

/-- C2 counterexample: after a RETRIEVAL-intent retrieval failure sets the
error, a further subsystem call (the synthesis backend) is still made — the
trace records a synthesis call with the error already set — contradicting the
claimed invariant that no further subsystem calls follow a set error. -/
theorem c2_counterexample :
    (Subsys.synth, lit "Error searching documents: boom") ∈ (runPipeline oRagFail (lit "q")).2 ∧
    (runPipeline oRagFail (lit "q")).1.error = lit "Error searching documents: boom" := by
  decide

/-- C2 (amended): an error set during SQL generation or SQL execution routes to
the error handler — the apology is the final answer and no database,
retrieval or synthesis call follows; but an error set by a RETRIEVAL-intent
retrieval failure does not stop the pipeline: the synthesis backend is still
invoked once with the error already set.  Every run still ends with exactly
one final answer text. -/
theorem c2_amended_error_flow :
    (∀ (o : Oracles) (q cr e : Str),
      o.ragAvailable = true → o.useEmbClassifier = false →
      o.classifierLLM q = .ok cr →
      hasSub (upStr (stripStr cr)) (lit "HYBRID") = false →
      hasSub (upStr (stripStr cr)) (lit "RAG") = false →
      o.sqlLLM ⟨promptVariant o.sqlModel, stripStr q, o.schemaText, lit "SQL"⟩ = .error e →
      runPipeline o q =
        (⟨q, lit "SQL", [], none, none, [],
            apologyText (lit "Error generating SQL: " ++ e), lit "Error generating SQL: " ++ e⟩,
          [(Subsys.classifyLLM, []), (Subsys.sqlGen, [])])) ∧
    (∀ (o : Oracles) (q cr raw e : Str),
      o.ragAvailable = true → o.useEmbClassifier = false →
      o.classifierLLM q = .ok cr →
      hasSub (upStr (stripStr cr)) (lit "HYBRID") = false →
      hasSub (upStr (stripStr cr)) (lit "RAG") = false →
      o.sqlLLM ⟨promptVariant o.sqlModel, stripStr q, o.schemaText, lit "SQL"⟩ = .ok raw →
      cleanSqlResponse raw ≠ [] →
      o.execQ (cleanSqlResponse raw) = .fail e (cleanSqlResponse raw) →
      e ≠ [] →
      runPipeline o q =
        (⟨q, lit "SQL", cleanSqlResponse raw,
            some ⟨.fail e (cleanSqlResponse raw), []⟩, none, [], apologyText e, e⟩,
          [(Subsys.classifyLLM, []), (Subsys.sqlGen, []), (Subsys.dbExec, [])])) ∧
    (∀ (o : Oracles) (q cr e r : Str),
      o.ragAvailable = true → o.useEmbClassifier = false →
      o.classifierLLM q = .ok cr →
      hasSub (upStr (stripStr cr)) (lit "HYBRID") = false →
      hasSub (upStr (stripStr cr)) (lit "RAG") = true →
      o.ragSearch q 3 = .fail e →
      o.convLLM ⟨lit "RAG", q, []⟩ = .ok r →
      (Subsys.synth, e) ∈ (runPipeline o q).2) := by
  refine ⟨?_, ?_, ?_⟩
  · intro o q cr e hrag hemb hcls hh hr hgen
    have h1 : classifyQueryNode o (initState q) =
        (⟨q, lit "SQL", [], none, none, [], [], []⟩, [(Subsys.classifyLLM, [])]) := by
      simp [classifyQueryNode, initState, hrag, hcls, hh, hr]
    have h2 : generateSqlNode o ⟨q, lit "SQL", [], none, none, [], [], []⟩ =
        (⟨q, lit "SQL", [], none, none, [], [], lit "Error generating SQL: " ++ e⟩,
          [(Subsys.sqlGen, [])]) := by
      simp [generateSqlNode, hgen]
    have hne : lit "Error generating SQL: " ++ e ≠ [] :=
      List.append_ne_nil_of_left_ne_nil (by decide) e
    have hchk : checkSqlGeneration
        ⟨q, lit "SQL", [], none, none, [], [], lit "Error generating SQL: " ++ e⟩ =
        lit "error" := by
      unfold checkSqlGeneration
      rw [if_pos hne]
    simp [runPipeline, hemb, h1, h2, hchk, routeQuery, handleErrorNode,
      show (lit "sql" = lit "sql") = True from eq_true rfl,
      show (lit "error" = lit "execute") = False from eq_false (by decide)]
  · intro o q cr raw e hrag hemb hcls hh hr hgen hne hexec hene
    have h1 : classifyQueryNode o (initState q) =
        (⟨q, lit "SQL", [], none, none, [], [], []⟩, [(Subsys.classifyLLM, [])]) := by
      simp [classifyQueryNode, initState, hrag, hcls, hh, hr]
    have h2 : generateSqlNode o ⟨q, lit "SQL", [], none, none, [], [], []⟩ =
        (⟨q, lit "SQL", cleanSqlResponse raw, none, none, [], [], []⟩,
          [(Subsys.sqlGen, [])]) := by
      simp [generateSqlNode, hgen, hne]
    have h3 : executeSqlNode o ⟨q, lit "SQL", cleanSqlResponse raw, none, none, [], [], []⟩ =
        (⟨q, lit "SQL", cleanSqlResponse raw,
            some ⟨.fail e (cleanSqlResponse raw), []⟩, none, [], [], e⟩,
          [(Subsys.dbExec, [])]) := by
      simp [executeSqlNode, hexec]
    simp [runPipeline, hemb, h1, h2, h3, routeQuery, checkSqlGeneration, checkSqlExecution,
      handleErrorNode, hne, hene, ExecResult.success,
      show (lit "sql" = lit "sql") = True from eq_true rfl,
      show (lit "execute" = lit "execute") = True from eq_true rfl,
      show (lit "error" = lit "execute") = False from eq_false (by decide),
      show (lit "error" = lit "format") = False from eq_false (by decide),
      show (lit "error" = lit "rag") = False from eq_false (by decide)]
  · intro o q cr e r hrag hemb hcls hh hr hsearch hconv
    have h1 : classifyQueryNode o (initState q) =
        (⟨q, lit "RAG", [], none, none, [], [], []⟩, [(Subsys.classifyLLM, [])]) := by
      simp [classifyQueryNode, initState, hrag, hcls, hh, hr]
    have h2 : retrieveDocumentsNode o ⟨q, lit "RAG", [], none, none, [], [], []⟩ =
        (⟨q, lit "RAG", [], none, some (.fail e), [], [], e⟩, [(Subsys.ragSearch, [])]) := by
      simp [retrieveDocumentsNode, hrag, hsearch,
        show (lit "RAG" = lit "HYBRID") = False from eq_false (by decide)]
    have h3 : formatResponseNode o ⟨q, lit "RAG", [], none, some (.fail e), [], [], e⟩ =
        (⟨q, lit "RAG", [], none, some (.fail e), [], stripStr r, e⟩, [(Subsys.synth, e)]) := by
      simp [formatResponseNode, hconv]
    simp [runPipeline, hemb, h1, h2, h3, routeQuery,
      show (lit "RAG" = lit "SQL") = False from eq_false (by decide),
      show (lit "RAG" = lit "HYBRID") = False from eq_false (by decide),
      show (lit "rag" = lit "sql") = False from eq_false (by decide),
      show (lit "rag" = lit "hybrid") = False from eq_false (by decide)]

/-- Witness for the amended C2: concrete runs exercising the SQL-generation
failure route, the SQL-execution failure route, and the retrieval-failure
route into synthesis. -/
theorem c2_amended_error_flow_witness :
    runPipeline { oBase with sqlLLM := fun _ => .error (lit "timeout") } (lit "q") =
      (⟨lit "q", lit "SQL", [], none, none, [],
          apologyText (lit "Error generating SQL: " ++ lit "timeout"),
          lit "Error generating SQL: " ++ lit "timeout"⟩,
        [(Subsys.classifyLLM, []), (Subsys.sqlGen, [])]) ∧
    (Subsys.synth, lit "Error searching documents: boom") ∈ (runPipeline oRagFail (lit "q")).2 :=
  ⟨c2_amended_error_flow.1 _ (lit "q") (lit "SQL") (lit "timeout")
      rfl rfl rfl (by decide) (by decide) rfl,
   c2_amended_error_flow.2.2 oRagFail (lit "q") (lit "RAG")
      (lit "Error searching documents: boom") (lit "I could not find documents.")
      rfl rfl rfl (by decide) (by decide) rfl rfl⟩

/-- Helper: when every exact-key lookup misses and every per-title search
fails, the by-title retrieval loop accumulates nothing but records, per title,
the exact-key lookup followed by the fallback search. -/
theorem retrieveByTitlesLoop_all_fail (o : Oracles) (errAt e₁ : Str)
    (hget : ∀ t, o.chromaGet t = .absent) (hs1 : ∀ t, o.ragSearch t 1 = .fail e₁) :
    ∀ ts : List Str, retrieveByTitlesLoop o errAt ts =
      ([], [], [], ts.flatMap (fun _ => [(Subsys.ragGet, errAt), (Subsys.ragSearch, errAt)])) := by
  intro ts
  induction ts with
  | nil => rfl
  | cons t rest ih =>
    simp [retrieveByTitlesLoop, getDocumentByTitle, hget, hs1, ih, List.flatMap_cons]

/-- C3: a HYBRID run in which SQL execution succeeds and document retrieval
fails proceeds to synthesis with an empty document set: the final result has
no error, a non-empty answer, and the execution result of the successful SQL
call.  (First conjunct: full pipeline, retrieval failing through the
semantic-search fallback; second conjunct: the retrieval node is also
non-fatal when titles exist but every lookup and fallback search fails.) -/
theorem c3_hybrid_nonfatal_retrieval :
    (∀ (o : Oracles) (q cr raw e r : Str) (cols : List Str),
      o.ragAvailable = true → o.useEmbClassifier = false →
      o.classifierLLM q = .ok cr →
      hasSub (upStr (stripStr cr)) (lit "HYBRID") = true →
      o.sqlLLM ⟨promptVariant o.sqlModel, stripStr q, o.schemaText, lit "HYBRID"⟩ = .ok raw →
      cleanSqlResponse raw ≠ [] →
      o.execQ (cleanSqlResponse raw) = .ok (cleanSqlResponse raw) cols [] →
      o.ragSearch q 3 = .fail e →
      o.convLLM ⟨lit "HYBRID", q,
        [ContextPart.sqlPart (cleanSqlResponse raw)
          ⟨.ok (cleanSqlResponse raw) cols [], []⟩]⟩ = .ok r →
      stripStr r ≠ [] →
      runPipeline o q =
        (⟨q, lit "HYBRID", cleanSqlResponse raw,
            some ⟨.ok (cleanSqlResponse raw) cols [], []⟩, some (.fail e), [],
            stripStr r, []⟩,
          [(Subsys.classifyLLM, []), (Subsys.sqlGen, []), (Subsys.dbExec, []),
           (Subsys.ragSearch, []), (Subsys.synth, [])]) ∧
        (runPipeline o q).1.error = [] ∧ (runPipeline o q).1.formattedResponse ≠ []) ∧
    (∀ (o : Oracles) (s : AgentState) (e₁ : Str),
      o.ragAvailable = true → s.queryType = lit "HYBRID" →
      extractTitlesFromSqlResults s ≠ [] →
      (∀ t, o.chromaGet t = .absent) → (∀ t, o.ragSearch t 1 = .fail e₁) →
      retrieveDocumentsNode o s =
        ({ s with
            ragResults := some (.fail (lit "No documents found for the specified titles")),
            retrievedDocs := [] },
          (extractTitlesFromSqlResults s).flatMap
            (fun _ => [(Subsys.ragGet, s.error), (Subsys.ragSearch, s.error)]))) := by
  constructor
  · intro o q cr raw e r cols hrag hemb hcls hh hgen hne hexec hsearch hconv hrne
    have h1 : classifyQueryNode o (initState q) =
        (⟨q, lit "HYBRID", [], none, none, [], [], []⟩, [(Subsys.classifyLLM, [])]) := by
      simp [classifyQueryNode, initState, hrag, hcls, hh]
    have h2 : generateSqlNode o ⟨q, lit "HYBRID", [], none, none, [], [], []⟩ =
        (⟨q, lit "HYBRID", cleanSqlResponse raw, none, none, [], [], []⟩,
          [(Subsys.sqlGen, [])]) := by
      simp [generateSqlNode, hgen, hne]
    have h3 : executeSqlNode o ⟨q, lit "HYBRID", cleanSqlResponse raw, none, none, [], [], []⟩ =
        (⟨q, lit "HYBRID", cleanSqlResponse raw,
            some ⟨.ok (cleanSqlResponse raw) cols [], []⟩, none, [], [], []⟩,
          [(Subsys.dbExec, [])]) := by
      simp [executeSqlNode, hexec]
    have hg : checkSqlGeneration
        ⟨q, lit "HYBRID", cleanSqlResponse raw, none, none, [], [], []⟩ = lit "execute" := by
      unfold checkSqlGeneration
      rw [if_neg (by simp), if_pos hne]
    have h4 : checkSqlExecution
        ⟨q, lit "HYBRID", cleanSqlResponse raw,
          some ⟨.ok (cleanSqlResponse raw) cols [], []⟩, none, [], [], []⟩ = lit "rag" := by
      simp [checkSqlExecution, ExecResult.success]
    have h5 : retrieveDocumentsNode o
        ⟨q, lit "HYBRID", cleanSqlResponse raw,
          some ⟨.ok (cleanSqlResponse raw) cols [], []⟩, none, [], [], []⟩ =
        (⟨q, lit "HYBRID", cleanSqlResponse raw,
            some ⟨.ok (cleanSqlResponse raw) cols [], []⟩, some (.fail e), [], [], []⟩,
          [(Subsys.ragSearch, [])]) := by
      simp [retrieveDocumentsNode, hrag, hsearch, extractTitlesFromSqlResults,
        ExecResult.success,
        show (lit "HYBRID" = lit "RAG") = False from eq_false (by decide)]
    have h6 : formatResponseNode o
        ⟨q, lit "HYBRID", cleanSqlResponse raw,
          some ⟨.ok (cleanSqlResponse raw) cols [], []⟩, some (.fail e), [], [], []⟩ =
        (⟨q, lit "HYBRID", cleanSqlResponse raw,
            some ⟨.ok (cleanSqlResponse raw) cols [], []⟩, some (.fail e), [],
            stripStr r, []⟩,
          [(Subsys.synth, [])]) := by
      simp [formatResponseNode, ExecResult.success, SearchResult.metas, SearchResult.sims, hconv]
    have hrun : runPipeline o q =
        (⟨q, lit "HYBRID", cleanSqlResponse raw,
            some ⟨.ok (cleanSqlResponse raw) cols [], []⟩, some (.fail e), [],
            stripStr r, []⟩,
          [(Subsys.classifyLLM, []), (Subsys.sqlGen, []), (Subsys.dbExec, []),
           (Subsys.ragSearch, []), (Subsys.synth, [])]) := by
      simp [runPipeline, hemb, h1, h2, h3, hg, h4, h5, h6, routeQuery,
        show (lit "HYBRID" = lit "SQL") = False from eq_false (by decide),
        show (lit "HYBRID" = lit "RAG") = False from eq_false (by decide),
        show (lit "hybrid" = lit "sql") = False from eq_false (by decide),
        show (lit "execute" = lit "execute") = True from eq_true rfl,
        show (lit "rag" = lit "format") = False from eq_false (by decide)]
    refine ⟨hrun, ?_, ?_⟩
    · rw [hrun]
    · rw [hrun]
      exact hrne
  · intro o s e₁ hrag hqt hts hget hs1
    have hloop := retrieveByTitlesLoop_all_fail o s.error e₁ hget hs1
      (extractTitlesFromSqlResults s)
    simp [retrieveDocumentsNode, hrag, hqt, hts, hloop, retrieveDocumentsByTitles,
      show (lit "HYBRID" = lit "RAG") = False from eq_false (by decide)]

/-- Witness for C3: a concrete HYBRID run with one result column, zero rows,
failing document search, and a successful synthesis. -/
theorem c3_hybrid_nonfatal_retrieval_witness :
    runPipeline
      { oBase with
        classifierLLM := fun _ => .ok (lit "HYBRID")
        execQ := fun _ => .ok (lit "SELECT 1") [lit "x"] []
        ragSearch := fun _ _ => .fail (lit "down")
        convLLM := fun _ => .ok (lit " the answer ") } (lit "most viewed movie about") =
      (⟨lit "most viewed movie about", lit "HYBRID", cleanSqlResponse (lit "SELECT 1"),
          some ⟨.ok (cleanSqlResponse (lit "SELECT 1")) [lit "x"] [], []⟩,
          some (.fail (lit "down")), [], stripStr (lit " the answer "), []⟩,
        [(Subsys.classifyLLM, []), (Subsys.sqlGen, []), (Subsys.dbExec, []),
         (Subsys.ragSearch, []), (Subsys.synth, [])]) :=
  (c3_hybrid_nonfatal_retrieval.1
    { oBase with
      classifierLLM := fun _ => .ok (lit "HYBRID")
      execQ := fun _ => .ok (lit "SELECT 1") [lit "x"] []
      ragSearch := fun _ _ => .fail (lit "down")
      convLLM := fun _ => .ok (lit " the answer ") }
    (lit "most viewed movie about") (lit "HYBRID") (lit "SELECT 1") (lit "down")
    (lit " the answer ") [lit "x"]
    rfl rfl rfl (by decide) rfl (by decide) rfl rfl rfl (by decide)).1

/-- Helper: the by-title retrieval loop accumulates, in title order, exactly
the per-title contributions described by the specification: an exact-key hit
contributes that document with similarity exactly 1, a miss falls back to a
top-1 semantic search on the title text; the trace per title is the exact
lookup first, then the fallback search only on a miss. -/
theorem retrieveByTitlesLoop_spec (o : Oracles) (errAt : Str) (ts : List Str) :
    (retrieveByTitlesLoop o errAt ts).1 = ts.flatMap (titleLookupSpecDocs o) ∧
    (retrieveByTitlesLoop o errAt ts).2.2.1 = ts.flatMap (titleLookupSpecSims o) ∧
    (retrieveByTitlesLoop o errAt ts).2.2.2 = ts.flatMap (titleLookupSpecTrace o errAt) := by
  induction ts with
  | nil => exact ⟨rfl, rfl, rfl⟩
  | cons t rest ih =>
    obtain ⟨ih1, ih2, ih3⟩ := ih
    cases hgd : getDocumentByTitle o.chromaGet t with
    | ok d m =>
      simp [retrieveByTitlesLoop, titleLookupSpecDocs, titleLookupSpecSims,
        titleLookupSpecTrace, hgd, ih1, ih2, ih3, List.flatMap_cons]
    | fail err =>
      cases hs : o.ragSearch t 1 with
      | ok ds ms ss =>
        cases ds with
        | nil =>
          simp [retrieveByTitlesLoop, titleLookupSpecDocs, titleLookupSpecSims,
            titleLookupSpecTrace, hgd, hs, ih1, ih2, ih3, List.flatMap_cons]
        | cons d4 ds4 =>
          simp [retrieveByTitlesLoop, titleLookupSpecDocs, titleLookupSpecSims,
            titleLookupSpecTrace, hgd, hs, ih1, ih2, ih3, List.flatMap_cons]
      | fail e2 =>
        simp [retrieveByTitlesLoop, titleLookupSpecDocs, titleLookupSpecSims,
          titleLookupSpecTrace, hgd, hs, ih1, ih2, ih3, List.flatMap_cons]

/-- C6: on a HYBRID run reaching retrieval with a successful SQL result — if
titles were extracted, each title is looked up by exact key first (a hit
contributing that document with similarity exactly 1.0) with a top-1 semantic
search on the title text as fallback; if no titles were extracted, a single
semantic search on the original query text is performed instead. -/
theorem c6_hybrid_title_retrieval :
    (∀ (o : Oracles) (errAt : Str) (ts : List Str),
      (retrieveByTitlesLoop o errAt ts).1 = ts.flatMap (titleLookupSpecDocs o) ∧
      (retrieveByTitlesLoop o errAt ts).2.2.1 = ts.flatMap (titleLookupSpecSims o) ∧
      (retrieveByTitlesLoop o errAt ts).2.2.2 = ts.flatMap (titleLookupSpecTrace o errAt)) ∧
    (∀ (o : Oracles) (s : AgentState) (sr : SqlResults),
      o.ragAvailable = true → s.queryType = lit "HYBRID" →
      s.sqlResults = some sr → sr.outcome.success = true →
      extractTitlesFromSqlResults s = [] →
      (retrieveDocumentsNode o s).1.ragResults = some (o.ragSearch s.userQuery 3) ∧
      (retrieveDocumentsNode o s).2 = [(Subsys.ragSearch, s.error)]) ∧
    (∀ (o : Oracles) (s : AgentState) (sr : SqlResults),
      o.ragAvailable = true → s.queryType = lit "HYBRID" →
      s.sqlResults = some sr → sr.outcome.success = true →
      extractTitlesFromSqlResults s ≠ [] →
      (retrieveDocumentsNode o s).1.ragResults =
        some (retrieveDocumentsByTitles o s.error (extractTitlesFromSqlResults s)).1 ∧
      (retrieveDocumentsNode o s).2 =
        (extractTitlesFromSqlResults s).flatMap (titleLookupSpecTrace o s.error)) := by
  refine ⟨retrieveByTitlesLoop_spec, ?_, ?_⟩
  · intro o s sr hrag hqt hsr hsuc hts
    cases hrs : o.ragSearch s.userQuery 3 with
    | ok ds ms ss =>
      constructor <;>
        simp [retrieveDocumentsNode, hrag, hqt, hts, hrs]
    | fail e2 =>
      constructor <;>
        simp [retrieveDocumentsNode, hrag, hqt, hts, hrs,
          show (lit "HYBRID" = lit "RAG") = False from eq_false (by decide)]
  · intro o s sr hrag hqt hsr hsuc hts
    have hie : (extractTitlesFromSqlResults s).isEmpty = false := by
      cases h : extractTitlesFromSqlResults s with
      | nil => exact absurd h hts
      | cons a l => rfl
    cases hL : (retrieveByTitlesLoop o s.error (extractTitlesFromSqlResults s)).1 with
    | nil =>
      constructor <;>
        simp [retrieveDocumentsNode, hrag, hqt, hie, retrieveDocumentsByTitles, hL,
          ← (retrieveByTitlesLoop_spec o s.error (extractTitlesFromSqlResults s)).2.2,
          show (lit "HYBRID" = lit "RAG") = False from eq_false (by decide)]
    | cons d ds =>
      constructor <;>
        simp [retrieveDocumentsNode, hrag, hqt, hie, retrieveDocumentsByTitles, hL,
          ← (retrieveByTitlesLoop_spec o s.error (extractTitlesFromSqlResults s)).2.2]

/-- Witness for C6: a concrete HYBRID retrieval with one extracted title whose
exact-key lookup hits, and another with no extracted titles falling back to a
semantic search on the query text. -/
theorem c6_hybrid_title_retrieval_witness :
    ((retrieveDocumentsNode
        { oBase with chromaGet := fun _ => ChromaGet.found (lit "A space adventure summary.") [(lit "title", lit "Aventuras_Galácticas")] }
        ⟨lit "what is the most viewed movie about", lit "HYBRID",
          lit "SELECT titulo FROM contenido",
          some ⟨.ok (lit "SELECT titulo FROM contenido") [lit "titulo"]
              [[Val.vstr (lit "Aventuras Galácticas")]],
            [[(lit "titulo", Val.vstr (lit "Aventuras Galácticas"))]]⟩,
          none, [], [], []⟩).1.ragResults =
      some (retrieveDocumentsByTitles
        { oBase with chromaGet := fun _ => ChromaGet.found (lit "A space adventure summary.") [(lit "title", lit "Aventuras_Galácticas")] }
        []
        (extractTitlesFromSqlResults
          ⟨lit "what is the most viewed movie about", lit "HYBRID",
            lit "SELECT titulo FROM contenido",
            some ⟨.ok (lit "SELECT titulo FROM contenido") [lit "titulo"]
                [[Val.vstr (lit "Aventuras Galácticas")]],
              [[(lit "titulo", Val.vstr (lit "Aventuras Galácticas"))]]⟩,
            none, [], [], []⟩)).1) ∧
    ((retrieveDocumentsNode oBase
        ⟨lit "q", lit "HYBRID", lit "SELECT 1",
          some ⟨.ok (lit "SELECT 1") [lit "x"] [], []⟩, none, [], [], []⟩).1.ragResults =
      some (oBase.ragSearch (lit "q") 3)) :=
  ⟨(c6_hybrid_title_retrieval.2.2
      { oBase with chromaGet := fun _ => ChromaGet.found (lit "A space adventure summary.") [(lit "title", lit "Aventuras_Galácticas")] }
      ⟨lit "what is the most viewed movie about", lit "HYBRID",
        lit "SELECT titulo FROM contenido",
        some ⟨.ok (lit "SELECT titulo FROM contenido") [lit "titulo"]
            [[Val.vstr (lit "Aventuras Galácticas")]],
          [[(lit "titulo", Val.vstr (lit "Aventuras Galácticas"))]]⟩,
        none, [], [], []⟩
      ⟨.ok (lit "SELECT titulo FROM contenido") [lit "titulo"]
          [[Val.vstr (lit "Aventuras Galácticas")]],
        [[(lit "titulo", Val.vstr (lit "Aventuras Galácticas"))]]⟩
      rfl rfl rfl rfl (by decide)).1,
   (c6_hybrid_title_retrieval.2.1 oBase
      ⟨lit "q", lit "HYBRID", lit "SELECT 1",
        some ⟨.ok (lit "SELECT 1") [lit "x"] [], []⟩, none, [], [], []⟩
      ⟨.ok (lit "SELECT 1") [lit "x"] [], []⟩
      rfl rfl rfl rfl rfl).1⟩

/-! ### C8 groundwork: occurrences and the search primitives -/

theorem startsWithL_iff {s pat : Str} : startsWithL s pat = true ↔ ∃ v, s = pat ++ v := by
  induction pat generalizing s with
  | nil => simp [startsWithL]
  | cons p ps ih =>
    cases s with
    | nil => simp [startsWithL]
    | cons c t =>
      simp only [startsWithL, Bool.and_eq_true, beq_iff_eq, ih, List.cons_append,
        List.cons.injEq]
      constructor
      · rintro ⟨rfl, v, rfl⟩
        exact ⟨v, rfl, rfl⟩
      · rintro ⟨v, rfl, rfl⟩
        exact ⟨rfl, v, rfl⟩

theorem startsWithL_append (pat v : Str) : startsWithL (pat ++ v) pat = true :=
  startsWithL_iff.mpr ⟨v, rfl⟩

theorem findSub_some_occAt {s pat : Str} {i : Nat} (h : findSub s pat = some i) :
    occAt s pat i := by
  induction s generalizing i with
  | nil =>
    unfold findSub at h
    by_cases hp : pat.isEmpty
    · simp [hp] at h
      subst h
      simp [List.isEmpty_iff] at hp
      exact ⟨[], [], by simp [hp], rfl⟩
    · simp [hp] at h
  | cons c t ih =>
    unfold findSub at h
    by_cases hs : startsWithL (c :: t) pat = true
    · simp [hs] at h
      subst h
      obtain ⟨v, hv⟩ := startsWithL_iff.mp hs
      exact ⟨[], v, by simp [hv], rfl⟩
    · simp [hs] at h
      obtain ⟨j, hj, rfl⟩ := h
      obtain ⟨u, v, huv, hlen⟩ := ih hj
      exact ⟨c :: u, v, by simp [huv], by simp [hlen]⟩

theorem findSub_min {s pat : Str} {i : Nat} (h : findSub s pat = some i) :
    ∀ j, j < i → ¬ occAt s pat j := by
  induction s generalizing i with
  | nil =>
    unfold findSub at h
    by_cases hp : pat.isEmpty
    · simp [hp] at h
      omega
    · simp [hp] at h
  | cons c t ih =>
    unfold findSub at h
    by_cases hs : startsWithL (c :: t) pat = true
    · simp [hs] at h
      omega
    · simp [hs] at h
      obtain ⟨j₀, hj₀, rfl⟩ := h
      intro j hj hocc
      cases j with
      | zero =>
        obtain ⟨u, v, huv, hlen⟩ := hocc
        rw [List.length_eq_zero] at hlen
        subst hlen
        exact hs (startsWithL_iff.mpr ⟨v, by simpa using huv⟩)
      | succ j' =>
        obtain ⟨u, v, huv, hlen⟩ := hocc
        cases u with
        | nil => simp at hlen
        | cons c' u' =>
          simp only [List.cons_append, List.cons.injEq] at huv
          exact ih hj₀ j' (by omega) ⟨u', v, huv.2, by simpa using hlen⟩

theorem findSub_none {s pat : Str} (h : findSub s pat = none) :
    ∀ j, ¬ occAt s pat j := by
  induction s with
  | nil =>
    unfold findSub at h
    by_cases hp : pat.isEmpty
    · simp [hp] at h
    · intro j ⟨u, v, huv, hlen⟩
      have : pat = [] := by
        cases pat with
        | nil => rfl
        | cons a b => simp at huv
      simp [this, List.isEmpty_iff] at hp
  | cons c t ih =>
    unfold findSub at h
    by_cases hs : startsWithL (c :: t) pat = true
    · simp [hs] at h
    · simp [hs] at h
      intro j hocc
      cases j with
      | zero =>
        obtain ⟨u, v, huv, hlen⟩ := hocc
        rw [List.length_eq_zero] at hlen
        subst hlen
        exact hs (startsWithL_iff.mpr ⟨v, by simpa using huv⟩)
      | succ j' =>
        obtain ⟨u, v, huv, hlen⟩ := hocc
        cases u with
        | nil => simp at hlen
        | cons c' u' =>
          simp only [List.cons_append, List.cons.injEq] at huv
          exact ih h j' ⟨u', v, huv.2, by simpa using hlen⟩

theorem findSub_eq_some_of {s pat : Str} {i : Nat} (hocc : occAt s pat i)
    (hmin : ∀ j, j < i → ¬ occAt s pat j) : findSub s pat = some i := by
  cases hf : findSub s pat with
  | none => exact absurd hocc (findSub_none hf i)
  | some k =>
    rcases Nat.lt_trichotomy k i with h | h | h
    · exact absurd (findSub_some_occAt hf) (hmin k h)
    · rw [h]
    · exact absurd hocc (findSub_min hf i h)

theorem subOf_iff_occAt {pat s : Str} : subOf pat s ↔ ∃ i, occAt s pat i := by
  constructor
  · rintro ⟨u, v, rfl⟩
    exact ⟨u.length, u, v, rfl, rfl⟩
  · rintro ⟨i, u, v, h, _⟩
    exact ⟨u, v, h⟩

theorem hasSub_iff_subOf {s pat : Str} : hasSub s pat = true ↔ subOf pat s := by
  unfold hasSub
  constructor
  · intro h
    rw [Option.isSome_iff_exists] at h
    obtain ⟨i, hi⟩ := h
    exact subOf_iff_occAt.mpr ⟨i, findSub_some_occAt hi⟩
  · rintro ⟨u, v, rfl⟩
    cases hf : findSub (u ++ pat ++ v) pat with
    | none => exact absurd ⟨u, v, rfl, rfl⟩ (findSub_none hf u.length)
    | some k => rfl

theorem hasSub_eq_false_iff {s pat : Str} : hasSub s pat = false ↔ ¬ subOf pat s := by
  rw [← hasSub_iff_subOf]
  simp

theorem subOf_append_left {pat s : Str} (w : Str) (h : subOf pat s) : subOf pat (w ++ s) := by
  obtain ⟨u, v, rfl⟩ := h
  exact ⟨w ++ u, v, by simp⟩

theorem subOf_append_right {pat s : Str} (w : Str) (h : subOf pat s) : subOf pat (s ++ w) := by
  obtain ⟨u, v, rfl⟩ := h
  exact ⟨u, v ++ w, by simp⟩

theorem subOf_of_take {pat s : Str} {k : Nat} (h : subOf pat (s.take k)) : subOf pat s := by
  have := subOf_append_right (s.drop k) h
  rwa [List.take_append_drop] at this

theorem subOf_of_drop {pat s : Str} {k : Nat} (h : subOf pat (s.drop k)) : subOf pat s := by
  have := subOf_append_left (s.take k) h
  rwa [List.take_append_drop] at this

theorem occAt_take_of {s pat : Str} {j k : Nat} (h : occAt (s.take k) pat j) : occAt s pat j := by
  obtain ⟨u, v, huv, hlen⟩ := h
  refine ⟨u, v ++ s.drop k, ?_, hlen⟩
  conv_lhs => rw [← List.take_append_drop k s]
  rw [huv]
  simp

theorem occAt_to_take {s pat : Str} {j k : Nat} (h : occAt s pat j)
    (hk : j + pat.length ≤ k) : occAt (s.take k) pat j := by
  obtain ⟨u, v, huv, hlen⟩ := h
  refine ⟨u, v.take (k - j - pat.length), ?_, hlen⟩
  rw [huv, List.take_append_eq_append_take,
    List.take_of_length_le (by rw [List.length_append, hlen]; omega),
    show k - (u ++ pat).length = k - j - pat.length by rw [List.length_append, hlen]; omega]

theorem occAt_drop_of {s pat : Str} {j k : Nat} (h : occAt (s.drop k) pat j)
    (hp : pat ≠ []) : occAt s pat (k + j) ∧ k ≤ s.length := by
  obtain ⟨u, v, huv, hlen⟩ := h
  by_cases hk : k ≤ s.length
  · refine ⟨⟨s.take k ++ u, v, ?_, ?_⟩, hk⟩
    · conv_lhs => rw [← List.take_append_drop k s]
      rw [huv]
      simp
    · rw [List.length_append, List.length_take, hlen]
      omega
  · exfalso
    have hdk : s.drop k = [] := List.drop_eq_nil_of_le (by omega)
    rw [hdk] at huv
    have h2 : u ++ (pat ++ v) = [] := by rw [← List.append_assoc]; exact huv.symm
    rw [List.append_eq_nil] at h2
    have h3 := h2.2
    rw [List.append_eq_nil] at h3
    exact hp h3.1

theorem occAt_of_drop {s pat : Str} {j k : Nat} (h : occAt s pat (k + j)) :
    occAt (s.drop k) pat j := by
  obtain ⟨u, v, huv, hlen⟩ := h
  refine ⟨u.drop k, v, ?_, by rw [List.length_drop, hlen]; omega⟩
  rw [huv, List.append_assoc, List.drop_append_eq_append_drop,
    show k - u.length = 0 by omega, List.drop_zero, ← List.append_assoc]

/-! ### C8 groundwork: right-strip and strip lemmas -/

theorem dropRW_eq_self {p : Char → Bool} {s : Str}
    (h : ∀ c, s.getLast? = some c → p c = false) : dropRW p s = s := by
  unfold dropRW
  cases hs : s.reverse with
  | nil =>
    rw [List.reverse_eq_nil_iff] at hs
    simp [hs]
  | cons c t =>
    have hc : s.getLast? = some c := by
      rw [List.getLast?_eq_head?_reverse, hs]
      rfl
    rw [List.dropWhile_cons, if_neg (by simp [h c hc])]
    rw [← hs, List.reverse_reverse]

theorem dropRW_decomp (p : Char → Bool) (s : Str) :
    ∃ w, s = dropRW p s ++ w ∧ ∀ c ∈ w, p c = true := by
  refine ⟨(s.reverse.takeWhile p).reverse, ?_, ?_⟩
  · conv_lhs => rw [← List.reverse_reverse s, ← List.takeWhile_append_dropWhile p s.reverse]
    rw [List.reverse_append]
    rfl
  · intro c hc
    rw [List.mem_reverse] at hc
    exact List.mem_takeWhile_imp hc

theorem dropWhile_decomp (p : Char → Bool) (s : Str) :
    ∃ w, s = w ++ s.dropWhile p ∧ ∀ c ∈ w, p c = true := by
  refine ⟨s.takeWhile p, (List.takeWhile_append_dropWhile p s).symm, ?_⟩
  intro c hc
  exact List.mem_takeWhile_imp hc

theorem subOf_stripStr {pat s : Str} (h : subOf pat (stripStr s)) : subOf pat s := by
  obtain ⟨w₁, hw₁, _⟩ := dropWhile_decomp isWs (dropRW isWs s)
  obtain ⟨w₂, hw₂, _⟩ := dropRW_decomp isWs s
  have h1 : subOf pat (dropRW isWs s) := by
    rw [hw₁]
    exact subOf_append_left w₁ h
  rw [hw₂]
  exact subOf_append_right w₂ h1

theorem dropRW_append_right {p : Char → Bool} {y : Str} (x : Str) (hy : dropRW p y ≠ []) :
    dropRW p (x ++ y) = x ++ dropRW p y := by
  unfold dropRW at hy ⊢
  rw [List.reverse_append, List.dropWhile_append, if_neg ?_]
  · rw [List.reverse_append, List.reverse_reverse]
  · intro h
    rw [List.isEmpty_iff] at h
    exact hy (by rw [h]; rfl)

theorem dropRW_append_all {p : Char → Bool} {y : Str} (x : Str) (hy : ∀ c ∈ y, p c = true) :
    dropRW p (x ++ y) = dropRW p x := by
  unfold dropRW
  rw [List.reverse_append, List.dropWhile_append, if_pos ?_]
  rw [List.isEmpty_iff, List.dropWhile_eq_nil_iff]
  intro c hc
  exact hy c (by simpa using hc)

theorem dropRW_eq_nil_iff {p : Char → Bool} {s : Str} :
    dropRW p s = [] ↔ ∀ c ∈ s, p c = true := by
  unfold dropRW
  rw [List.reverse_eq_nil_iff, List.dropWhile_eq_nil_iff]
  constructor
  · intro h c hc
    exact h c (by simpa using hc)
  · intro h c hc
    exact h c (by simpa using hc)

/-- The right strip acts only on the part after a block `T` whose last
character fails `p`. -/
theorem dropRW_around {p : Char → Bool} {T : Str} (u v : Str) (hT : T ≠ [])
    (hl : ∀ c, T.getLast? = some c → p c = false) :
    dropRW p (u ++ T ++ v) = u ++ T ++ dropRW p v := by
  by_cases hv : dropRW p v = []
  · have hva : ∀ c ∈ v, p c = true := dropRW_eq_nil_iff.mp hv
    have hlast : ∀ c, (u ++ T).getLast? = some c → p c = false := by
      intro c hc
      rw [List.getLast?_append] at hc
      cases hT' : T.getLast? with
      | none =>
        rw [List.getLast?_eq_none_iff] at hT'
        exact absurd hT' hT
      | some d =>
        rw [hT'] at hc
        simp only [Option.or_some, Option.some.injEq] at hc
        subst hc
        exact hl d hT'
    rw [dropRW_append_all (u ++ T) hva, dropRW_eq_self hlast, hv, List.append_nil]
  · rw [dropRW_append_right (u ++ T) hv, List.append_assoc]

/-- The left strip acts only on the part before a block `T` whose first
character fails `p`. -/
theorem dropWhile_around {p : Char → Bool} {T : Str} (u v : Str) (hT : T ≠ [])
    (hh : ∀ c, T.head? = some c → p c = false) :
    (u ++ T ++ v).dropWhile p = u.dropWhile p ++ T ++ v := by
  cases T with
  | nil => exact absurd rfl hT
  | cons c T₂ =>
    have hc : p c = false := hh c rfl
    rw [List.append_assoc, List.dropWhile_append]
    by_cases hu : (u.dropWhile p).isEmpty
    · rw [if_pos hu]
      rw [List.isEmpty_iff] at hu
      rw [hu, List.cons_append, List.dropWhile_cons, if_neg (by simp [hc])]
      simp
    · rw [if_neg hu, List.append_assoc]

/-- The two strips of `str.strip()` around a block `T` whose first and last
characters fail `p`. -/
theorem strip_decomp {p : Char → Bool} {T : Str} (u v : Str) (hT : T ≠ [])
    (hh : ∀ c, T.head? = some c → p c = false) (hl : ∀ c, T.getLast? = some c → p c = false) :
    (dropRW p (u ++ T ++ v)).dropWhile p = u.dropWhile p ++ T ++ dropRW p v := by
  rw [dropRW_around u v hT hl, dropWhile_around u (dropRW p v) hT hh]

/-- `stripStr` preserves the fence invariant. -/
theorem stripStr_wInv {s : Str} (h : wInv s) : wInv (stripStr s) := by
  obtain ⟨u, v, rfl, hv, hfirst⟩ := h
  unfold stripStr
  rw [strip_decomp u v (by decide) (by decide) (by decide)]
  refine ⟨u.dropWhile isWs, dropRW isWs v, rfl, ?_, ?_⟩
  · intro hsub
    obtain ⟨w, hw, _⟩ := dropRW_decomp isWs v
    exact hv (by rw [hw]; exact subOf_append_right w hsub)
  · intro hsub
    obtain ⟨w, hw, _⟩ := dropWhile_decomp isWs u
    refine hfirst ?_
    rw [hw, List.append_assoc]
    exact subOf_append_left w hsub

theorem stripStr_tickFree {s : Str} (h : tickFree s) : tickFree (stripStr s) :=
  fun hsub => h (subOf_stripStr hsub)

/-! ### C8 groundwork: space-squeezing lemmas -/

theorem subOf_length {pat s : Str} (h : subOf pat s) : pat.length ≤ s.length := by
  obtain ⟨u, v, rfl⟩ := h
  simp
  omega

theorem dedupe_mem {c : Char} {z : Str} (h : c ∈ dedupeSp z) : c ∈ z := by
  induction z using dedupeSp.induct with
  | case1 => simp [dedupeSp] at h
  | case2 d => simpa [dedupeSp] using h
  | case3 a b t hab ih =>
    rw [dedupeSp, if_pos hab] at h
    exact List.mem_cons_of_mem a (ih h)
  | case4 a b t hab ih =>
    rw [dedupeSp, if_neg hab] at h
    rcases List.mem_cons.mp h with rfl | h2
    · exact List.mem_cons_self _ _
    · exact List.mem_cons_of_mem a (ih h2)

theorem dedupe_head (t : Str) (c : Char) : ∃ r, dedupeSp (c :: t) = c :: r := by
  induction t generalizing c with
  | nil => exact ⟨[], rfl⟩
  | cons b t₂ ih =>
    by_cases hab : (c == ' ' && b == ' ') = true
    · rw [dedupeSp, if_pos hab]
      obtain ⟨r, hr⟩ := ih b
      simp only [Bool.and_eq_true, beq_iff_eq] at hab
      rw [hr, hab.1, hab.2]
      exact ⟨r, rfl⟩
    · rw [dedupeSp, if_neg hab]
      exact ⟨dedupeSp (b :: t₂), rfl⟩

theorem dedupe_sfree_append {m v : Str} (hne : m ≠ []) (hm : ∀ c ∈ m, ¬ c = ' ') :
    dedupeSp (m ++ v) = m ++ dedupeSp v := by
  induction m with
  | nil => exact absurd rfl hne
  | cons a m' ih =>
    have ha : ¬ a = ' ' := hm a (List.mem_cons_self _ _)
    cases m' with
    | nil =>
      cases v with
      | nil => rfl
      | cons b t =>
        rw [List.cons_append, List.nil_append, dedupeSp, if_neg (by simp [ha])]
        rfl
    | cons a₂ m₂ =>
      rw [List.cons_append, List.cons_append, dedupeSp, if_neg (by simp [ha]),
        ← List.cons_append,
        ih (by simp) (fun c hc => hm c (List.mem_cons_of_mem a hc))]
      rfl

theorem dedupe_append_head_ne {x y : Str} {c : Char} (hy : y.head? = some c) (hc : ¬ c = ' ') :
    dedupeSp (x ++ y) = dedupeSp x ++ dedupeSp y := by
  induction x using dedupeSp.induct with
  | case1 => simp [dedupeSp]
  | case2 d =>
    cases y with
    | nil => simp at hy
    | cons e t =>
      simp only [List.head?_cons, Option.some.injEq] at hy
      subst hy
      simp only [List.singleton_append]
      rw [dedupeSp, dedupeSp, if_neg (by simp [hc]), List.singleton_append]
  | case3 a b t hab ih =>
    rw [List.cons_append, List.cons_append, dedupeSp, if_pos hab, dedupeSp, if_pos hab,
      ← List.cons_append, ih]
  | case4 a b t hab ih =>
    rw [List.cons_append, List.cons_append, dedupeSp, if_neg hab,
      ← List.cons_append, ih, dedupeSp, if_neg hab, List.cons_append]

theorem dedupe_space_cons (w : Str) :
    dedupeSp (' ' :: w) = ' ' :: dedupeSp (w.dropWhile (fun c => c == ' ')) := by
  induction w with
  | nil => rfl
  | cons b t ih =>
    by_cases hb : b = ' '
    · subst hb
      rw [dedupeSp, if_pos (by simp), ih, List.dropWhile_cons, if_pos (by simp)]
    · rw [dedupeSp, if_neg (by simp [hb]), List.dropWhile_cons, if_neg (by simp [hb])]

theorem dedupe_noTwoSp (z : Str) : ¬ subOf (' ' :: ' ' :: []) (dedupeSp z) := by
  induction z using dedupeSp.induct with
  | case1 =>
    intro h
    have := subOf_length h
    simp [dedupeSp] at this
  | case2 d =>
    intro h
    have := subOf_length h
    simp [dedupeSp] at this
  | case3 a b t hab ih =>
    rw [dedupeSp, if_pos hab]
    exact ih
  | case4 a b t hab ih =>
    rw [dedupeSp, if_neg hab]
    rintro ⟨u, v, huv⟩
    cases u with
    | nil =>
      simp only [List.nil_append, List.cons_append, List.cons.injEq] at huv
      obtain ⟨rfl, huv2⟩ := huv
      obtain ⟨r, hr⟩ := dedupe_head t b
      rw [hr] at huv2
      simp only [List.cons_append, List.cons.injEq] at huv2
      simp [huv2.1] at hab
    | cons c u₂ =>
      simp only [List.cons_append, List.cons.injEq] at huv
      exact ih ⟨u₂, v, huv.2⟩

theorem dedupe_prefix_pullback {w m : Str} (hm : ' ' ∉ m)
    (h : ∃ r, dedupeSp w = m ++ r) : ∃ v, w = m ++ v := by
  induction w using dedupeSp.induct generalizing m with
  | case1 =>
    obtain ⟨r, hr⟩ := h
    rw [dedupeSp] at hr
    cases m with
    | nil => exact ⟨[], rfl⟩
    | cons c m₂ => simp at hr
  | case2 d =>
    obtain ⟨r, hr⟩ := h
    rw [dedupeSp] at hr
    cases m with
    | nil => exact ⟨[d], rfl⟩
    | cons c m₂ =>
      simp only [List.cons_append, List.cons.injEq] at hr
      obtain ⟨rfl, hr2⟩ := hr
      have hm₂ : m₂ = [] := by
        cases m₂ with
        | nil => rfl
        | cons e m₃ => simp at hr2
      subst hm₂
      exact ⟨[], rfl⟩
  | case3 a b t hab ih =>
    obtain ⟨r, hr⟩ := h
    rw [dedupeSp, if_pos hab] at hr
    simp only [Bool.and_eq_true, beq_iff_eq] at hab
    cases m with
    | nil => exact ⟨a :: b :: t, rfl⟩
    | cons c m₂ =>
      obtain ⟨v, hv⟩ := ih (m := c :: m₂) hm ⟨r, hr⟩
      simp only [List.cons_append, List.cons.injEq] at hv
      have hcsp : c = ' ' := by rw [← hv.1, hab.2]
      rw [hcsp] at hm
      exact absurd (List.mem_cons_self _ _) hm
  | case4 a b t hab ih =>
    obtain ⟨r, hr⟩ := h
    rw [dedupeSp, if_neg hab] at hr
    cases m with
    | nil => exact ⟨a :: b :: t, rfl⟩
    | cons c m₂ =>
      simp only [List.cons_append, List.cons.injEq] at hr
      obtain ⟨rfl, hr2⟩ := hr
      obtain ⟨v, hv⟩ := ih (m := m₂) (fun h2 => hm (List.mem_cons_of_mem _ h2)) ⟨r, hr2⟩
      exact ⟨v, by rw [List.cons_append, ← hv]⟩

theorem dedupe_subOf_pullback {w m : Str} (hm : ' ' ∉ m)
    (h : subOf m (dedupeSp w)) : subOf m w := by
  induction w using dedupeSp.induct with
  | case1 =>
    obtain ⟨u, v, huv⟩ := h
    rw [dedupeSp] at huv
    have hlen := congrArg List.length huv
    simp only [List.length_nil, List.length_append] at hlen
    have hm0 : m = [] := List.eq_nil_of_length_eq_zero (by omega)
    subst hm0
    exact ⟨[], [], rfl⟩
  | case2 d =>
    obtain ⟨u, v, huv⟩ := h
    rw [dedupeSp] at huv
    exact ⟨u, v, huv⟩
  | case3 a b t hab ih =>
    rw [dedupeSp, if_pos hab] at h
    obtain ⟨u, v, huv⟩ := ih h
    exact ⟨a :: u, v, by rw [huv]; simp⟩
  | case4 a b t hab ih =>
    rw [dedupeSp, if_neg hab] at h
    obtain ⟨u, v, huv⟩ := h
    cases u with
    | nil =>
      simp only [List.nil_append] at huv
      cases m with
      | nil => exact ⟨[], a :: b :: t, rfl⟩
      | cons c m₂ =>
        simp only [List.cons_append, List.cons.injEq] at huv
        obtain ⟨rfl, huv2⟩ := huv
        obtain ⟨v', hv'⟩ := dedupe_prefix_pullback (m := m₂)
          (fun h2 => hm (List.mem_cons_of_mem _ h2)) ⟨v, huv2⟩
        exact ⟨[], v', by simp [hv']⟩
    | cons c u₂ =>
      simp only [List.cons_append, List.cons.injEq] at huv
      obtain ⟨u₃, v₃, huv₃⟩ := ih ⟨u₂, v, huv.2⟩
      exact ⟨a :: u₃, v₃, by rw [huv₃]; simp⟩

theorem getLast_mem_of {z : Str} {c : Char} (h : z.getLast? = some c) : c ∈ z := by
  rw [List.getLast?_eq_head?_reverse] at h
  cases hz : z.reverse with
  | nil => rw [hz] at h; simp at h
  | cons d r =>
    rw [hz] at h
    simp only [List.head?_cons, Option.some.injEq] at h
    have hd : d ∈ z.reverse := by rw [hz]; exact List.mem_cons_self _ _
    rw [List.mem_reverse] at hd
    rw [← h]
    exact hd

theorem dropWhile_head_not (p : Char → Bool) (l : Str) {b : Char} {r : Str}
    (h : l.dropWhile p = b :: r) : p b = false := by
  induction l with
  | nil => simp at h
  | cons a l₂ ih =>
    rw [List.dropWhile_cons] at h
    by_cases ha : p a = true
    · rw [if_pos ha] at h; exact ih h
    · rw [if_neg ha] at h
      injection h with h1 h2
      subst h1
      cases hpa : p a with
      | false => rfl
      | true => exact absurd hpa ha

theorem dropRW_cons_of_not {p : Char → Bool} {b : Char} {q : Str} (hb : p b = false) :
    dropRW p (b :: q) = b :: dropRW p q := by
  by_cases h : dropRW p q = []
  · have hall : ∀ c ∈ q, p c = true := dropRW_eq_nil_iff.mp h
    rw [h]
    rw [show (b :: q : Str) = [b] ++ q from rfl, dropRW_append_all [b] hall]
    have hone : dropRW p [b] = [b] := dropRW_eq_self (by
      intro c hc
      simp only [List.getLast?_singleton, Option.some.injEq] at hc
      exact hc ▸ hb)
    rw [hone]
  · rw [show (b :: q : Str) = [b] ++ q from rfl, dropRW_append_right [b] h, List.singleton_append]

theorem dedupe_of_sfree {z : Str} (hm : ∀ c ∈ z, ¬ c = ' ') : dedupeSp z = z := by
  cases z with
  | nil => rfl
  | cons a t =>
    have h := dedupe_sfree_append (m := a :: t) (v := []) (List.cons_ne_nil _ _) hm
    simpa [dedupeSp] using h

theorem stripSp_of_sfree {z : Str} (hm : ∀ c ∈ z, ¬ c = ' ') : stripSp z = z := by
  rw [stripSp]
  have h1 : dropRW (fun c => c == ' ') z = z := dropRW_eq_self (by
    intro c hc
    simp [hm c (getLast_mem_of hc)])
  rw [h1]
  cases z with
  | nil => rfl
  | cons a t =>
    rw [List.dropWhile_cons, if_neg (by simp [hm a (List.mem_cons_self _ _)])]

theorem stripSp_sp_cons (y : Str) : stripSp (' ' :: y) = stripSp y := by
  by_cases h : dropRW (fun c => c == ' ') y = []
  · have hall := dropRW_eq_nil_iff.mp h
    rw [stripSp, stripSp, h]
    have h2 : dropRW (fun c => c == ' ') (' ' :: y) = [] := dropRW_eq_nil_iff.mpr (by
      intro c hc
      rcases List.mem_cons.mp hc with rfl | hc2
      · rfl
      · exact hall c hc2)
    rw [h2]
  · rw [stripSp, stripSp, show (' ' :: y : Str) = [' '] ++ y from rfl,
      dropRW_append_right [' '] h, List.singleton_append, List.dropWhile_cons,
      if_pos (by decide)]

theorem stripSp_dedupe_sp_cons (z : Str) :
    stripSp (dedupeSp (' ' :: z)) = stripSp (dedupeSp z) := by
  cases z with
  | nil => decide
  | cons b t =>
    by_cases hb : b = ' '
    · subst hb
      rw [dedupeSp, if_pos (by decide)]
    · rw [dedupeSp, if_neg (by simp [hb]), stripSp_sp_cons]

theorem stripSp_dedupe_dropWhile (z : Str) :
    stripSp (dedupeSp z) = stripSp (dedupeSp (z.dropWhile (fun c => c == ' '))) := by
  induction z with
  | nil => rfl
  | cons b t ih =>
    by_cases hb : b = ' '
    · subst hb
      rw [List.dropWhile_cons, if_pos (by decide), stripSp_dedupe_sp_cons]
      exact ih
    · rw [List.dropWhile_cons, if_neg (by simp [hb])]

theorem stripSp_sfree_append {w r : Str} (hne : w ≠ []) (hw : ∀ c ∈ w, ¬ c = ' ') :
    stripSp (w ++ r) = w ++ dropRW (fun c => c == ' ') r := by
  have hwhead : ∀ X : Str, List.dropWhile (fun c => c == ' ') (w ++ X) = w ++ X := by
    intro X
    cases w with
    | nil => exact absurd rfl hne
    | cons a w₂ =>
      rw [List.cons_append, List.dropWhile_cons,
        if_neg (by simp [hw a (List.mem_cons_self _ _)])]
  by_cases h : dropRW (fun c => c == ' ') r = []
  · rw [stripSp, dropRW_append_all w (dropRW_eq_nil_iff.mp h), h, List.append_nil]
    rw [dropRW_eq_self (fun c hc => by simp [hw c (getLast_mem_of hc)])]
    have h2 := hwhead []
    rw [List.append_nil] at h2
    exact h2
  · rw [stripSp, dropRW_append_right w h, hwhead]

theorem splitWsAux_ne_nil (t : Str) : ∀ cur : Str, cur ≠ [] → splitWsAux t cur ≠ [] := by
  induction t with
  | nil =>
    intro cur hcur
    rw [splitWsAux, if_neg (by simpa [List.isEmpty_iff] using hcur)]
    exact List.cons_ne_nil _ _
  | cons c t₂ ih =>
    intro cur hcur
    rw [splitWsAux]
    by_cases hc : isWs c = true
    · rw [if_pos hc, if_neg (by simpa [List.isEmpty_iff] using hcur)]
      exact List.cons_ne_nil _ _
    · rw [if_neg hc]
      exact ih (c :: cur) (List.cons_ne_nil _ _)

theorem splitWsAux_nil_all (t : Str) : splitWsAux t [] = [] ↔ ∀ c ∈ t, isWs c = true := by
  induction t with
  | nil => simp [splitWsAux]
  | cons c t₂ ih =>
    rw [splitWsAux]
    by_cases hc : isWs c = true
    · rw [if_pos hc, if_pos (show ([] : Str).isEmpty = true from rfl), ih]
      constructor
      · intro h x hx
        rcases List.mem_cons.mp hx with rfl | hx2
        · exact hc
        · exact h x hx2
      · intro h x hx
        exact h x (List.mem_cons_of_mem _ hx)
    · rw [if_neg hc]
      constructor
      · intro h
        exact absurd h (splitWsAux_ne_nil t₂ [c] (List.cons_ne_nil _ _))
      · intro h
        exact absurd (h c (List.mem_cons_self _ _)) hc

theorem collapse_bridge_aux (s : Str) : ∀ cur : Str, (∀ x ∈ cur, isWs x = false) →
    joinWords (splitWsAux s cur) = stripSp (dedupeSp (cur.reverse ++ s.map wsToSp)) := by
  induction s with
  | nil =>
    intro cur hcur
    cases cur with
    | nil => rfl
    | cons a cs =>
      have hsfree : ∀ x ∈ (a :: cs).reverse, ¬ x = ' ' := by
        intro x hx h
        rw [List.mem_reverse] at hx
        have h2 := hcur x hx
        rw [h] at h2
        exact absurd h2 (by decide)
      rw [splitWsAux, if_neg (by simp)]
      rw [List.map_nil, List.append_nil, dedupe_of_sfree hsfree, stripSp_of_sfree hsfree]
      rfl
  | cons c t ih =>
    intro cur hcur
    by_cases hc : isWs c = true
    · rw [splitWsAux, if_pos hc, List.map_cons,
        show wsToSp c = ' ' from by rw [wsToSp, if_pos hc]]
      cases cur with
      | nil =>
        rw [if_pos (show ([] : Str).isEmpty = true from rfl), ih [] (by simp)]
        simp only [List.reverse_nil, List.nil_append]
        rw [stripSp_dedupe_sp_cons]
      | cons a cs =>
        rw [if_neg (by simp)]
        have hwne : (a :: cs).reverse ≠ [] := by simp
        have hwsfree : ∀ x ∈ (a :: cs).reverse, ¬ x = ' ' := by
          intro x hx h
          rw [List.mem_reverse] at hx
          have h2 := hcur x hx
          rw [h] at h2
          exact absurd h2 (by decide)
        rw [dedupe_sfree_append hwne hwsfree, dedupe_space_cons,
          stripSp_sfree_append hwne hwsfree]
        cases hsp : splitWsAux t [] with
        | nil =>
          have hall : ∀ x ∈ t, isWs x = true := (splitWsAux_nil_all t).mp hsp
          have hdw : List.dropWhile (fun c => c == ' ') (t.map wsToSp) = [] := by
            rw [List.dropWhile_eq_nil_iff]
            intro x hx
            obtain ⟨y, hy, rfl⟩ := List.mem_map.mp hx
            rw [wsToSp, if_pos (hall y hy)]
            rfl
          rw [hdw]
          rw [show dropRW (fun c => c == ' ') (' ' :: dedupeSp ([] : Str)) = [] from by decide]
          rw [List.append_nil]
          rfl
        | cons w₂ ws₂ =>
          have hex : splitWsAux t [] ≠ [] := by
            rw [hsp]; exact List.cons_ne_nil _ _
          have hzne : List.dropWhile (fun c => c == ' ') (t.map wsToSp) ≠ [] := by
            intro hnil
            apply hex
            rw [splitWsAux_nil_all]
            intro x hx
            by_contra hxw
            have hxf : isWs x = false := by
              cases hb2 : isWs x
              · rfl
              · exact absurd hb2 hxw
            have hmem : wsToSp x ∈ t.map wsToSp := List.mem_map_of_mem _ hx
            have h2 := List.dropWhile_eq_nil_iff.mp hnil _ hmem
            rw [wsToSp, if_neg (by simp [hxf])] at h2
            have hx3 : x = ' ' := by simpa using h2
            rw [hx3] at hxf
            exact absurd hxf (by decide)
          rw [show joinWords ((a :: cs).reverse :: w₂ :: ws₂)
              = (a :: cs).reverse ++ ' ' :: joinWords (w₂ :: ws₂) from rfl]
          rw [← hsp, ih [] (by simp)]
          simp only [List.reverse_nil, List.nil_append]
          congr 1
          cases hz : List.dropWhile (fun c => c == ' ') (t.map wsToSp) with
          | nil => exact absurd hz hzne
          | cons b r =>
            have hb : (b == ' ') = false := dropWhile_head_not (fun c => c == ' ') (t.map wsToSp) hz
            obtain ⟨q, hq⟩ := dedupe_head r b
            rw [hq]
            have hdr : dropRW (fun c => c == ' ') (b :: q)
                = b :: dropRW (fun c => c == ' ') q := dropRW_cons_of_not hb
            rw [show (' ' :: b :: q : Str) = [' '] ++ (b :: q) from rfl,
              dropRW_append_right [' '] (by rw [hdr]; exact List.cons_ne_nil _ _), hdr]
            rw [stripSp_dedupe_dropWhile, hz, hq, stripSp, hdr, List.dropWhile_cons,
              if_neg (by simp [hb])]
            rfl
    · have hcf : isWs c = false := by
        cases hb2 : isWs c
        · rfl
        · exact absurd hb2 hc
      rw [splitWsAux, if_neg hc, ih (c :: cur) (by
        intro x hx
        rcases List.mem_cons.mp hx with rfl | hx2
        · exact hcf
        · exact hcur x hx2)]
      rw [List.map_cons, show wsToSp c = c from by rw [wsToSp, if_neg hc]]
      rw [List.reverse_cons, List.append_assoc, List.singleton_append]

theorem collapse_bridge (s : Str) : collapseWs s = stripSp (dedupeSp (s.map wsToSp)) := by
  have h := collapse_bridge_aux s [] (by simp)
  rw [collapseWs, splitWs, h]
  simp

theorem dropWhile_head_opt_not {p : Char → Bool} {l : Str} {c : Char}
    (h : (l.dropWhile p).head? = some c) : p c = false := by
  cases hd : l.dropWhile p with
  | nil => rw [hd] at h; simp at h
  | cons b r =>
    rw [hd] at h
    simp only [List.head?_cons, Option.some.injEq] at h
    rw [← h]
    exact dropWhile_head_not p l hd

theorem dropRW_last_not {p : Char → Bool} {z : Str} {c : Char}
    (h : (dropRW p z).getLast? = some c) : p c = false := by
  rw [List.getLast?_eq_head?_reverse] at h
  unfold dropRW at h
  rw [List.reverse_reverse] at h
  exact dropWhile_head_opt_not h

theorem dropWhile_cons_self {p : Char → Bool} {c : Char} {t : Str}
    (h : List.dropWhile p (c :: t) = c :: t) : p c = false := by
  by_cases hc : p c = true
  · rw [List.dropWhile_cons, if_pos hc] at h
    have := congrArg List.length h
    have hle : (t.dropWhile p).length ≤ t.length := (List.dropWhile_sublist _).length_le
    simp at this
    omega
  · cases hpc : p c with
    | false => rfl
    | true => exact absurd hpc hc

theorem leftStripped_prefix {p : Char → Bool} {x y w : Str}
    (hx : List.dropWhile p x = x) (hxy : x = y ++ w) : List.dropWhile p y = y := by
  cases y with
  | nil => rfl
  | cons c t =>
    rw [hxy, List.cons_append] at hx
    have hc := dropWhile_cons_self hx
    rw [List.dropWhile_cons, if_neg (by simp [hc])]

theorem getLast_append_of_ne {l₁ l₂ : Str} (h : l₂ ≠ []) :
    (l₁ ++ l₂).getLast? = l₂.getLast? := by
  rw [List.getLast?_eq_head?_reverse, List.getLast?_eq_head?_reverse, List.reverse_append]
  cases hr : l₂.reverse with
  | nil => exact absurd (by simpa using hr) h
  | cons c r => rw [List.cons_append]; rfl

theorem stripStr_head {x : Str} {c : Char} (h : (stripStr x).head? = some c) :
    isWs c = false := by
  rw [stripStr] at h
  exact dropWhile_head_opt_not h

theorem stripStr_last {x : Str} {c : Char} (h : (stripStr x).getLast? = some c) :
    isWs c = false := by
  obtain ⟨w, hw, -⟩ := dropWhile_decomp isWs (dropRW isWs x)
  rw [← stripStr] at hw
  have hne : stripStr x ≠ [] := by
    intro hnil
    rw [hnil] at h
    simp at h
  apply dropRW_last_not (p := isWs) (z := x)
  rw [hw, getLast_append_of_ne hne]
  exact h

theorem stripSp_head_nsp {x : Str} {c : Char} (h : (stripSp x).head? = some c) :
    (c == ' ') = false := by
  rw [stripSp] at h
  exact dropWhile_head_opt_not (p := fun c => c == ' ') h

theorem stripSp_last_nsp {x : Str} {c : Char} (h : (stripSp x).getLast? = some c) :
    (c == ' ') = false := by
  obtain ⟨w, hw, -⟩ := dropWhile_decomp (fun c => c == ' ') (dropRW (fun c => c == ' ') x)
  rw [← stripSp] at hw
  have hne : stripSp x ≠ [] := by
    intro hnil
    rw [hnil] at h
    simp at h
  apply dropRW_last_not (p := fun c => c == ' ') (z := x)
  rw [hw, getLast_append_of_ne hne]
  exact h

theorem map_wsToSp_eq_self {s : Str} (h : ∀ c ∈ s, isWs c = true → c = ' ') :
    s.map wsToSp = s := by
  induction s with
  | nil => rfl
  | cons c t ih =>
    rw [List.map_cons, ih (fun x hx => h x (List.mem_cons_of_mem _ hx))]
    by_cases hc : isWs c = true
    · rw [wsToSp, if_pos hc, h c (List.mem_cons_self _ _) hc]
    · rw [wsToSp, if_neg hc]

theorem dedupe_of_noTwoSp {z : Str} (h : ¬ subOf (' ' :: ' ' :: []) z) :
    dedupeSp z = z := by
  induction z using dedupeSp.induct with
  | case1 => rfl
  | case2 d => rfl
  | case3 a b t hab ih =>
    simp only [Bool.and_eq_true, beq_iff_eq] at hab
    exact absurd ⟨[], t, by rw [hab.1, hab.2]; rfl⟩ h
  | case4 a b t hab ih =>
    rw [dedupeSp, if_neg hab, ih]
    intro ⟨u, v, huv⟩
    exact h ⟨a :: u, v, by rw [huv]; rfl⟩

theorem stripSp_eq_self_of {s : Str}
    (hh : ∀ c, s.head? = some c → (c == ' ') = false)
    (hl : ∀ c, s.getLast? = some c → (c == ' ') = false) : stripSp s = s := by
  rw [stripSp, dropRW_eq_self hl]
  cases s with
  | nil => rfl
  | cons a t => rw [List.dropWhile_cons, if_neg (by simp [hh a rfl])]

theorem stripStr_eq_self_of {s : Str}
    (hh : ∀ c, s.head? = some c → isWs c = false)
    (hl : ∀ c, s.getLast? = some c → isWs c = false) : stripStr s = s := by
  rw [stripStr, dropRW_eq_self hl]
  cases s with
  | nil => rfl
  | cons a t => rw [List.dropWhile_cons, if_neg (by simp [hh a rfl])]

theorem nf_stripStr {s : Str} (h : NF s) : stripStr s = s :=
  stripStr_eq_self_of h.2.2.1 (fun c hc => (h.2.2.2 c hc).1)

theorem nf_collapseWs {s : Str} (h : NF s) : collapseWs s = s := by
  rw [collapse_bridge, map_wsToSp_eq_self h.1, dedupe_of_noTwoSp h.2.1]
  apply stripSp_eq_self_of
  · intro c hc
    have := h.2.2.1 c hc
    simp only [beq_eq_false_iff_ne, ne_eq]
    intro hsp
    rw [hsp] at this
    exact absurd this (by decide)
  · intro c hc
    have := (h.2.2.2 c hc).1
    simp only [beq_eq_false_iff_ne, ne_eq]
    intro hsp
    rw [hsp] at this
    exact absurd this (by decide)

theorem nf_dropSemis {s : Str} (h : NF s) : dropSemis s = s := by
  have hsemi : endsWithSemi s = false := by
    rw [endsWithSemi]
    cases hg : s.getLast? with
    | none => rfl
    | some c =>
      have := (h.2.2.2 c hg).2
      simp [this]
  rw [dropSemis]
  cases hlen : s.length with
  | zero => rfl
  | succ n => rw [dropSemisFuel, if_neg (by simp [hsemi])]

theorem splitNlAux_no_nl {s : Str} (h : ∀ c ∈ s, ¬ c = '\n') :
    ∀ cur : Str, splitNlAux s cur = [cur.reverse ++ s] := by
  induction s with
  | nil => intro cur; simp [splitNlAux]
  | cons c t ih =>
    intro cur
    rw [splitNlAux, if_neg (by simp [h c (List.mem_cons_self _ _)]),
      ih (fun x hx => h x (List.mem_cons_of_mem _ hx))]
    simp

theorem proseCut_no_nl {s : Str} (h : ∀ c ∈ s, ¬ c = '\n') : proseCut s = s := by
  rw [proseCut]
  by_cases hcond : (hasSub s nlnl || hasSub s dotSp) = true
  · rw [if_pos hcond]
    have hs : splitNl s = [s] := by
      rw [splitNl, splitNlAux_no_nl h]
      simp
    rw [hs]
    simp only [List.findIdx?_cons, List.findIdx?_nil]
    by_cases hf : startsWithL (upStr (stripStr s)) selectU = true
    · rw [if_pos hf]
      rfl
    · rw [if_neg hf]
  · rw [if_neg hcond]

theorem nf_proseCut {s : Str} (h : NF s) : proseCut s = s := by
  apply proseCut_no_nl
  intro c hc hnl
  have := h.1 c hc
  rw [hnl] at this
  have h2 := this (by decide)
  exact absurd h2 (by decide)

theorem removeAll_of_none {s pat : Str} (h : findSub s pat = none) : removeAll s pat = s := by
  rw [removeAll]
  cases hl : s.length with
  | zero => rfl
  | succ n => rw [removeAllFuel, h]

theorem removeAllFuel_ticks : ∀ n : Nat, ∀ s : Str, s.length ≤ n →
    ¬ subOf ticks (removeAllFuel n s ticks) := by
  intro n
  induction n with
  | zero =>
    intro s hlen h
    rw [removeAllFuel] at h
    have h3 := subOf_length h
    have ht : ticks.length = 3 := rfl
    omega
  | succ n ih =>
    intro s hlen h
    cases hf : findSub s ticks with
    | none =>
      have heq : removeAllFuel (n + 1) s ticks = s := by rw [removeAllFuel, hf]
      rw [heq] at h
      obtain ⟨j, hj⟩ := subOf_iff_occAt.mp h
      exact findSub_none hf j hj
    | some i =>
      have heq : removeAllFuel (n + 1) s ticks
          = s.take i ++ removeAllFuel n (s.drop (i + 3)) ticks := by
        rw [removeAllFuel, hf]
        rfl
      rw [heq] at h
      have hocc := findSub_some_occAt hf
      have hmin := findSub_min hf
      have hi3 : i + 3 ≤ s.length := by
        obtain ⟨u, v, huv, hlu⟩ := hocc
        have hlen2 := congrArg List.length huv
        simp only [List.length_append] at hlen2
        have ht : ticks.length = 3 := rfl
        omega
      have htake : (s.take i ++ removeAllFuel n (s.drop (i + 3)) ticks).take i = s.take i := by
        apply List.take_left'
        rw [List.length_take]
        omega
      have hdrop : (s.take i ++ removeAllFuel n (s.drop (i + 3)) ticks).drop i
          = removeAllFuel n (s.drop (i + 3)) ticks := by
        apply List.drop_left'
        rw [List.length_take]
        omega
      obtain ⟨j, hj⟩ := subOf_iff_occAt.mp h
      rcases Nat.lt_or_ge j i with hji | hji
      · rcases le_or_lt (j + 3) i with hj3 | hj3
        · have h1 : occAt ((s.take i ++ removeAllFuel n (s.drop (i + 3)) ticks).take i)
              ticks j := occAt_to_take hj (by
            have ht : ticks.length = 3 := rfl
            omega)
          rw [htake] at h1
          exact hmin j hji (occAt_take_of h1)
        · obtain ⟨u, v, huv, hlu⟩ := hj
          have hst : s.take i = u ++ ticks.take (i - j) := by
            have h2 : (s.take i ++ removeAllFuel n (s.drop (i + 3)) ticks).take i
                = (u ++ (ticks ++ v)).take i := by
              rw [huv, List.append_assoc]
            rw [htake] at h2
            rw [h2, List.take_append_eq_append_take,
              List.take_of_length_le (by rw [hlu]; omega), hlu,
              List.take_append_of_le_length (by
                have ht : ticks.length = 3 := rfl
                omega)]
          obtain ⟨U, V, hUV, hlU⟩ := hocc
          have hU : U = s.take i := by
            rw [hUV, List.append_assoc, ← hlU]
            exact (List.take_left' rfl).symm
          have hcomm : ticks.take (i - j) ++ ticks = ticks ++ ticks.take (i - j) := by
            have hd : i - j = 1 ∨ i - j = 2 := by omega
            rcases hd with hd | hd <;> rw [hd] <;> decide
          have hjo : occAt s ticks j := by
            refine ⟨u, ticks.take (i - j) ++ V, ?_, hlu⟩
            calc s = U ++ ticks ++ V := hUV
              _ = (u ++ ticks.take (i - j)) ++ ticks ++ V := by rw [hU, hst]
              _ = u ++ (ticks.take (i - j) ++ ticks) ++ V := by simp [List.append_assoc]
              _ = u ++ (ticks ++ ticks.take (i - j)) ++ V := by rw [hcomm]
              _ = u ++ ticks ++ (ticks.take (i - j) ++ V) := by simp [List.append_assoc]
          exact hmin j hji hjo
      · have h1 : occAt ((s.take i ++ removeAllFuel n (s.drop (i + 3)) ticks).drop i)
            ticks (j - i) := occAt_of_drop (by
          rw [show i + (j - i) = j from by omega]
          exact hj)
        rw [hdrop] at h1
        exact ih (s.drop (i + 3)) (by rw [List.length_drop]; omega)
          (subOf_iff_occAt.mpr ⟨j - i, h1⟩)

theorem removeAll_ticks_free (s : Str) : ¬ subOf ticks (removeAll s ticks) :=
  removeAllFuel_ticks s.length s (le_refl _)

theorem fences_inv (s : Str) : tickFree (fences s) ∨ wInv (fences s) := by
  by_cases h1 : hasSub s tickSql = true
  · cases hp : findSub s tickSql with
    | none => simp [hasSub, hp] at h1
    | some p =>
      have hstep : fences s = (match findSub (s.drop (p + 6)) ticks with
          | some e => (s.drop (p + 6)).take e
          | none => s) := by
        rw [fences, if_pos h1, hp]
      cases he : findSub (s.drop (p + 6)) ticks with
      | some e =>
        rw [he] at hstep
        have hstep2 : fences s = (s.drop (p + 6)).take e := by rw [hstep]
        rw [hstep2]
        left
        intro hsub
        obtain ⟨j, hj⟩ := subOf_iff_occAt.mp hsub
        obtain ⟨u, v, huv, hlu⟩ := hj
        have hjE : j + 3 ≤ e := by
          have hlen2 := congrArg List.length huv
          simp only [List.length_take, List.length_append] at hlen2
          have ht : ticks.length = 3 := rfl
          omega
        exact findSub_min he j (by omega) (occAt_take_of ⟨u, v, huv, hlu⟩)
      | none =>
        rw [he] at hstep
        have hstep2 : fences s = s := by rw [hstep]
        rw [hstep2]
        right
        obtain ⟨u, v, huv, hlu⟩ := findSub_some_occAt hp
        have hmin := findSub_min hp
        have hv : s.drop (p + 6) = v := by
          rw [huv]
          exact List.drop_left' (by rw [List.length_append, hlu]; rfl)
        refine ⟨u, v, by rw [huv], ?_, ?_⟩
        · intro hsub
          obtain ⟨j, hj⟩ := subOf_iff_occAt.mp hsub
          exact findSub_none he j (hv.symm ▸ hj)
        · intro hsub
          have hTake : u ++ tickSq5 = s.take (p + 5) := by
            rw [huv, List.append_assoc, List.take_append_eq_append_take,
              List.take_of_length_le (by rw [hlu]; omega), hlu,
              show p + 5 - p = 5 from by omega,
              List.take_append_of_le_length (by
                have h6 : tickSql.length = 6 := rfl
                omega)]
            rfl
          obtain ⟨j, hj⟩ := subOf_iff_occAt.mp hsub
          have hj2 : occAt s tickSql j := occAt_take_of (hTake ▸ hj)
          have hjp : j < p := by
            obtain ⟨u2, v2, huv2, hlu2⟩ := hj
            have hlen2 := congrArg List.length huv2
            simp only [List.length_append] at hlen2
            have h5 : tickSq5.length = 5 := rfl
            have h6 : tickSql.length = 6 := rfl
            omega
          exact hmin j hjp hj2
  · by_cases h2 : hasSub s ticks = true
    · have hin : removeAll s tickSql = s := removeAll_of_none (by
        cases hf2 : findSub s tickSql with
        | none => rfl
        | some k => rw [hasSub, hf2] at h1; simp at h1)
      have hstep : fences s = removeAll (removeAll s tickSql) ticks := by
        rw [fences, if_neg h1, if_pos h2]
      rw [hstep, hin]
      left
      exact removeAll_ticks_free s
    · have hstep : fences s = s := by
        rw [fences, if_neg h1, if_neg h2]
      rw [hstep]
      left
      intro hsub
      rw [← hasSub_iff_subOf] at hsub
      exact h2 hsub

theorem fences_eq_self {s : Str} (h : tickFree s ∨ wInv s) : fences s = s := by
  rcases h with h | h
  · have h1 : hasSub s tickSql = false := by
      rw [hasSub_eq_false_iff]
      rintro ⟨u, v, huv⟩
      exact h ⟨u, 's' :: 'q' :: 'l' :: v, by
        rw [huv, List.append_assoc, List.append_assoc]
        rfl⟩
    have h2 : hasSub s ticks = false := hasSub_eq_false_iff.mpr h
    rw [fences, if_neg (by simp [h1]), if_neg (by simp [h2])]
  · obtain ⟨u, v, huv, hv, hu⟩ := h
    have hocc : occAt s tickSql u.length := ⟨u, v, huv, rfl⟩
    have hmin : ∀ j, j < u.length → ¬ occAt s tickSql j := by
      intro j hj hoj
      apply hu
      have h1 : occAt (s.take (u.length + 5)) tickSql j := occAt_to_take hoj (by
        have h6 : tickSql.length = 6 := rfl
        omega)
      have hTake : s.take (u.length + 5) = u ++ tickSq5 := by
        rw [huv, List.append_assoc, List.take_append_eq_append_take,
          List.take_of_length_le (by omega),
          show u.length + 5 - u.length = 5 from by omega,
          List.take_append_of_le_length (by
            have h6 : tickSql.length = 6 := rfl
            omega)]
        rfl
      rw [hTake] at h1
      exact subOf_iff_occAt.mpr ⟨j, h1⟩
    have hfind : findSub s tickSql = some u.length := findSub_eq_some_of hocc hmin
    have hdrop : s.drop (u.length + 6) = v := by
      rw [huv]
      exact List.drop_left' (by rw [List.length_append]; rfl)
    have hfind2 : findSub (s.drop (u.length + 6)) ticks = none := by
      rw [hdrop]
      cases hf2 : findSub v ticks with
      | none => rfl
      | some k => exact absurd (subOf_iff_occAt.mpr ⟨k, findSub_some_occAt hf2⟩) hv
    have h1 : hasSub s tickSql = true := by
      rw [hasSub, hfind]
      rfl
    have hstep : fences s = (match findSub (s.drop (u.length + 6)) ticks with
        | some e => (s.drop (u.length + 6)).take e
        | none => s) := by
      rw [fences, if_pos h1, hfind]
    rw [hfind2] at hstep
    exact hstep

theorem dropRW_self_last {p : Char → Bool} {s : Str} (h : dropRW p s = s) :
    ∀ c, s.getLast? = some c → p c = false := by
  intro c hc
  rw [← h] at hc
  exact dropRW_last_not hc

theorem head_mem {s : Str} {c : Char} (h : s.head? = some c) : c ∈ s := by
  cases s with
  | nil => simp at h
  | cons a t =>
    simp only [List.head?_cons, Option.some.injEq] at h
    rw [← h]
    exact List.mem_cons_self _ _

theorem mem_of_stripSp {s : Str} {c : Char} (h : c ∈ stripSp s) : c ∈ s := by
  obtain ⟨w1, hw1, -⟩ := dropWhile_decomp (fun c => c == ' ') (dropRW (fun c => c == ' ') s)
  rw [← stripSp] at hw1
  obtain ⟨w2, hw2, -⟩ := dropRW_decomp (fun c => c == ' ') s
  rw [hw2, hw1]
  exact List.mem_append_left _ (List.mem_append_right _ h)

theorem dropSemisFuel_spec : ∀ n : Nat, ∀ s : Str,
    List.dropWhile isWs s = s → dropRW isWs s = s →
    ∃ k, k ≤ s.length ∧ dropSemisFuel n s = s.take k ∧
      (∀ c ∈ s.drop k, c = ';' ∨ isWs c = true) ∧
      (s.length ≤ n → endsWithSemi (dropSemisFuel n s) = false ∧
        (∀ c, (dropSemisFuel n s).getLast? = some c → isWs c = false)) := by
  intro n
  induction n with
  | zero =>
    intro s hls hrs
    refine ⟨s.length, le_refl _, by rw [dropSemisFuel, List.take_length], ?_, ?_⟩
    · rw [List.drop_length]
      intro c hc
      simp at hc
    · intro hlen
      have hs0 : s = [] := by
        cases s with
        | nil => rfl
        | cons a t => exact absurd hlen (by simp)
      subst hs0
      exact ⟨rfl, by intro c hc; rw [dropSemisFuel] at hc; simp at hc⟩
  | succ n ih =>
    intro s hls hrs
    cases hsemi : endsWithSemi s with
    | false =>
      have heq : dropSemisFuel (n + 1) s = s := by
        rw [dropSemisFuel, if_neg (by simp [hsemi])]
      refine ⟨s.length, le_refl _, by rw [heq, List.take_length], ?_, ?_⟩
      · rw [List.drop_length]
        intro c hc
        simp at hc
      · intro hlen
        rw [heq]
        exact ⟨hsemi, dropRW_self_last hrs⟩
    | true =>
      have hne : s ≠ [] := by
        intro h0
        rw [h0] at hsemi
        exact absurd hsemi (by decide)
      have hlast : s.getLast? = some ';' := by
        rw [endsWithSemi] at hsemi
        cases hg : s.getLast? with
        | none => rw [hg] at hsemi; simp at hsemi
        | some c =>
          rw [hg] at hsemi
          simp only [beq_iff_eq] at hsemi
          rw [hsemi]
      have hdecomp : s = s.dropLast ++ [';'] := by
        have h1 := List.dropLast_append_getLast hne
        have h3 := List.getLast?_eq_getLast s hne
        rw [hlast] at h3
        have h2 : s.getLast hne = ';' := (Option.some.inj h3).symm
        rw [← h2]
        exact h1.symm
      have hld : List.dropWhile isWs s.dropLast = s.dropLast :=
        leftStripped_prefix hls hdecomp
      obtain ⟨w1, hw1, hw1ws⟩ := dropRW_decomp isWs s.dropLast
      have hs' : stripStr s.dropLast = dropRW isWs s.dropLast := by
        rw [stripStr]
        exact leftStripped_prefix hld hw1
      have hls' : List.dropWhile isWs (stripStr s.dropLast) = stripStr s.dropLast := by
        rw [hs']
        exact leftStripped_prefix hld hw1
      have hrs' : dropRW isWs (stripStr s.dropLast) = stripStr s.dropLast :=
        dropRW_eq_self (fun c hc => stripStr_last hc)
      obtain ⟨k, hk, hkeq, hkmem, hkfuel⟩ := ih (stripStr s.dropLast) hls' hrs'
      have hsd : s = stripStr s.dropLast ++ (w1 ++ [';']) := by
        rw [hs']
        conv_lhs => rw [hdecomp, hw1]
        rw [List.append_assoc]
      have heq : dropSemisFuel (n + 1) s = dropSemisFuel n (stripStr s.dropLast) := by
        rw [dropSemisFuel, if_pos (by simp [hsemi])]
      refine ⟨k, ?_, ?_, ?_, ?_⟩
      · have := congrArg List.length hsd
        rw [List.length_append] at this
        omega
      · rw [heq, hkeq]
        conv_rhs => rw [hsd]
        rw [List.take_append_of_le_length hk]
      · intro c hc
        have hdk : s.drop k = (stripStr s.dropLast).drop k ++ (w1 ++ [';']) := by
          conv_lhs => rw [hsd]
          rw [List.drop_append_of_le_length hk]
        rw [hdk] at hc
        rcases List.mem_append.mp hc with hc1 | hc2
        · exact hkmem c hc1
        · rcases List.mem_append.mp hc2 with hc3 | hc4
          · exact Or.inr (hw1ws c hc3)
          · simp at hc4
            exact Or.inl hc4
      · intro hlen
        rw [heq]
        apply hkfuel
        have h1 : (stripStr s.dropLast).length ≤ s.dropLast.length := by
          rw [hs']
          have := congrArg List.length hw1
          rw [List.length_append] at this
          omega
        have h2 : s.dropLast.length = s.length - 1 := List.length_dropLast s
        have h3 : 1 ≤ s.length := by
          cases s with
          | nil => exact absurd rfl hne
          | cons a t => exact Nat.succ_le_succ (Nat.zero_le _)
        omega

theorem dropSemis_props (s : Str)
    (hls : List.dropWhile isWs s = s) (hrs : dropRW isWs s = s) :
    ∃ k, k ≤ s.length ∧ dropSemis s = s.take k ∧
      (∀ c ∈ s.drop k, c = ';' ∨ isWs c = true) ∧
      endsWithSemi (dropSemis s) = false ∧
      (∀ c, (dropSemis s).getLast? = some c → isWs c = false) := by
  obtain ⟨k, hk, hkeq, hkmem, hfuel⟩ := dropSemisFuel_spec s.length s hls hrs
  obtain ⟨hf1, hf2⟩ := hfuel (le_refl _)
  exact ⟨k, hk, hkeq, hkmem, hf1, hf2⟩

theorem wInv_take_of_clean {s : Str} {k : Nat} (hw : wInv s)
    (hmem : ∀ c ∈ s.drop k, c = ';' ∨ isWs c = true) : wInv (s.take k) := by
  obtain ⟨u, v, huv, hv, hu⟩ := hw
  have hk6 : u.length + 6 ≤ k := by
    by_contra hlt
    push_neg at hlt
    have hl : 'l' ∈ s.drop k := by
      have hdk : s.drop k = (u ++ tickSql).drop k ++ v := by
        rw [huv, List.drop_append_of_le_length (by
          rw [List.length_append]
          have h6 : tickSql.length = 6 := rfl
          omega)]
      have hne2 : (u ++ tickSql).drop k ≠ [] := by
        intro h0
        have := congrArg List.length h0
        rw [List.length_drop, List.length_append] at this
        have h6 : tickSql.length = 6 := rfl
        simp at this
        omega
      have hgl : ((u ++ tickSql).drop k).getLast? = some 'l' := by
        have hx := List.take_append_drop k (u ++ tickSql)
        have : (u ++ tickSql).getLast? = some 'l' := by
          rw [getLast_append_of_ne (by decide)]
          rfl
        rw [← hx, getLast_append_of_ne hne2] at this
        exact this
      rw [hdk]
      exact List.mem_append_left _ (getLast_mem_of hgl)
    rcases hmem 'l' hl with h | h
    · exact absurd h (by decide)
    · exact absurd h (by decide)
  have htk : s.take k = u ++ tickSql ++ v.take (k - (u.length + 6)) := by
    rw [huv, List.append_assoc, List.take_append_eq_append_take,
      List.take_of_length_le (by omega), List.take_append_eq_append_take,
      List.take_of_length_le (by
        have h6 : tickSql.length = 6 := rfl
        omega)]
    rw [show k - u.length - tickSql.length = k - (u.length + 6) from by
      have h6 : tickSql.length = 6 := rfl
      omega]
    rw [List.append_assoc]
  refine ⟨u, v.take (k - (u.length + 6)), htk, ?_, hu⟩
  intro hsub
  exact hv (subOf_of_take hsub)

theorem map_rigid_eq {pat : Str} : ∀ b : Str, b.map wsToSp = pat → ' ' ∉ pat → b = pat := by
  induction pat with
  | nil =>
    intro b hb _
    cases b with
    | nil => rfl
    | cons x b2 => simp at hb
  | cons p ps ih =>
    intro b hb hsp
    cases b with
    | nil => simp at hb
    | cons x b2 =>
      simp only [List.map_cons, List.cons.injEq] at hb
      have hx : x = p := by
        have h1 := hb.1
        by_cases hxw : isWs x = true
        · rw [wsToSp, if_pos hxw] at h1
          rw [← h1] at hsp
          exact absurd (List.mem_cons_self _ _) hsp
        · rw [wsToSp, if_neg hxw] at h1
          exact h1
      rw [hx, ih b2 hb.2 (fun hmem => hsp (List.mem_cons_of_mem _ hmem))]

theorem map_wsToSp_pullback {pat z : Str} (hpat : ' ' ∉ pat)
    (h : subOf pat (z.map wsToSp)) : subOf pat z := by
  obtain ⟨u2, v2, huv⟩ := h
  rw [List.append_assoc, List.map_eq_append_iff] at huv
  obtain ⟨a, bc, hz, ha, hbc⟩ := huv
  rw [List.map_eq_append_iff] at hbc
  obtain ⟨b, c, hbc2, hbm, hcm⟩ := hbc
  refine ⟨a, c, ?_⟩
  rw [hz, hbc2, map_rigid_eq b hbm hpat, List.append_assoc]

theorem dedupe_tickFree {z : Str} (h : tickFree z) : tickFree (dedupeSp z) :=
  fun hsub => h (dedupe_subOf_pullback (by decide) hsub)

theorem dedupe_wInv {z : Str} (h : wInv z) : wInv (dedupeSp z) := by
  obtain ⟨u, v, huv, hv, hu⟩ := h
  have h1 : dedupeSp z = dedupeSp u ++ tickSql ++ dedupeSp v := by
    rw [huv, List.append_assoc,
      dedupe_append_head_ne (y := tickSql ++ v) (c := '`') (by rfl) (by decide),
      dedupe_sfree_append (by decide) (by decide), List.append_assoc]
  refine ⟨dedupeSp u, dedupeSp v, h1,
    fun hsub => hv (dedupe_subOf_pullback (by decide) hsub), ?_⟩
  intro hsub
  apply hu
  have h2 : dedupeSp u ++ tickSq5 = dedupeSp (u ++ tickSq5) := by
    rw [dedupe_append_head_ne (y := tickSq5) (c := '`') (by rfl) (by decide),
      show dedupeSp tickSq5 = tickSq5 from by decide]
  rw [h2] at hsub
  exact dedupe_subOf_pullback (by decide) hsub

theorem subOf_stripSp {pat s : Str} (h : subOf pat (stripSp s)) : subOf pat s := by
  obtain ⟨w₁, hw₁, -⟩ := dropWhile_decomp (fun c => c == ' ') (dropRW (fun c => c == ' ') s)
  rw [← stripSp] at hw₁
  obtain ⟨w₂, hw₂, -⟩ := dropRW_decomp (fun c => c == ' ') s
  have h1 : subOf pat (dropRW (fun c => c == ' ') s) := by
    rw [hw₁]
    exact subOf_append_left w₁ h
  rw [hw₂]
  exact subOf_append_right w₂ h1

theorem stripSp_tickFree {s : Str} (h : tickFree s) : tickFree (stripSp s) :=
  fun hsub => h (subOf_stripSp hsub)

theorem stripSp_wInv {s : Str} (h : wInv s) : wInv (stripSp s) := by
  obtain ⟨u, v, rfl, hv, hfirst⟩ := h
  unfold stripSp
  rw [strip_decomp u v (by decide) (by decide) (by decide)]
  refine ⟨u.dropWhile (fun c => c == ' '), dropRW (fun c => c == ' ') v, rfl, ?_, ?_⟩
  · intro hsub
    obtain ⟨w, hw, -⟩ := dropRW_decomp (fun c => c == ' ') v
    exact hv (by rw [hw]; exact subOf_append_right w hsub)
  · intro hsub
    obtain ⟨w, hw, -⟩ := dropWhile_decomp (fun c => c == ' ') u
    refine hfirst ?_
    rw [hw, List.append_assoc]
    exact subOf_append_left w hsub

theorem map_wsToSp_wInv {z : Str} (h : wInv z) : wInv (z.map wsToSp) := by
  obtain ⟨u, v, huv, hv, hu⟩ := h
  refine ⟨u.map wsToSp, v.map wsToSp, ?_,
    fun hsub => hv (map_wsToSp_pullback (by decide) hsub), ?_⟩
  · rw [huv]
    simp only [List.map_append]
    rw [show tickSql.map wsToSp = tickSql from by decide]
  · intro hsub
    apply hu
    have h2 : u.map wsToSp ++ tickSq5 = (u ++ tickSq5).map wsToSp := by
      rw [List.map_append, show tickSq5.map wsToSp = tickSq5 from by decide]
    rw [h2] at hsub
    exact map_wsToSp_pullback (by decide) hsub

theorem map_wsToSp_tickFree {z : Str} (h : tickFree z) : tickFree (z.map wsToSp) :=
  fun hsub => h (map_wsToSp_pullback (by decide) hsub)

theorem collapseWs_tickFree {s : Str} (h : tickFree s) : tickFree (collapseWs s) := by
  rw [collapse_bridge]
  exact stripSp_tickFree (dedupe_tickFree (map_wsToSp_tickFree h))

theorem collapseWs_wInv {s : Str} (h : wInv s) : wInv (collapseWs s) := by
  rw [collapse_bridge]
  exact stripSp_wInv (dedupe_wInv (map_wsToSp_wInv h))

theorem dedupe_getLast : ∀ z : Str, (dedupeSp z).getLast? = z.getLast? := by
  intro z
  induction z using dedupeSp.induct with
  | case1 => rfl
  | case2 d => rfl
  | case3 a b t hab ih =>
    rw [dedupeSp, if_pos hab, ih, List.getLast?_cons_cons]
  | case4 a b t hab ih =>
    obtain ⟨r, hr⟩ := dedupe_head t b
    rw [dedupeSp, if_neg hab, hr, List.getLast?_cons_cons, ← hr, ih, List.getLast?_cons_cons]

theorem map_getLast (w : Str) : (w.map wsToSp).getLast? = w.getLast?.map wsToSp := by
  rw [List.getLast?_eq_head?_reverse, List.getLast?_eq_head?_reverse, ← List.map_reverse]
  exact List.head?_map wsToSp w.reverse

theorem collapse_getLast {w : Str} {c₀ : Char} (hg : w.getLast? = some c₀)
    (h0 : isWs c₀ = false) : (collapseWs w).getLast? = some c₀ := by
  rw [collapse_bridge]
  have hsp : (c₀ == ' ') = false := by
    simp only [beq_eq_false_iff_ne, ne_eq]
    intro hc
    rw [hc] at h0
    exact absurd h0 (by decide)
  have h1 : (w.map wsToSp).getLast? = some c₀ := by
    rw [map_getLast, hg]
    show some (wsToSp c₀) = some c₀
    rw [wsToSp, if_neg (by simp [h0])]
  have h2 : (dedupeSp (w.map wsToSp)).getLast? = some c₀ := by
    rw [dedupe_getLast]
    exact h1
  have h3 : dropRW (fun c => c == ' ') (dedupeSp (w.map wsToSp)) = dedupeSp (w.map wsToSp) :=
    dropRW_eq_self (by
      intro c hc
      rw [h2] at hc
      rw [← Option.some.inj hc]
      exact hsp)
  rw [stripSp, h3]
  have hmem : c₀ ∈ dedupeSp (w.map wsToSp) := getLast_mem_of h2
  have hne : (dedupeSp (w.map wsToSp)).dropWhile (fun c => c == ' ') ≠ [] := by
    intro h0'
    have hall := List.dropWhile_eq_nil_iff.mp h0'
    have := hall c₀ hmem
    rw [this] at hsp
    simp at hsp
  obtain ⟨w2, hw2, -⟩ := dropWhile_decomp (fun c => c == ' ') (dedupeSp (w.map wsToSp))
  rw [← getLast_append_of_ne hne, ← hw2]
  exact h2

theorem collapseWs_NF {w : Str}
    (hl : ∀ c, w.getLast? = some c → isWs c = false ∧ ¬ c = ';') :
    NF (collapseWs w) := by
  have hwsOnly : ∀ c ∈ collapseWs w, isWs c = true → c = ' ' := by
    rw [collapse_bridge]
    intro c hc hws
    have hc1 : c ∈ dedupeSp (w.map wsToSp) := mem_of_stripSp hc
    have hc2 : c ∈ w.map wsToSp := dedupe_mem hc1
    obtain ⟨y, hy, rfl⟩ := List.mem_map.mp hc2
    by_cases hyw : isWs y = true
    · rw [wsToSp, if_pos hyw]
    · rw [wsToSp, if_neg hyw] at hws
      exact absurd hws hyw
  refine ⟨hwsOnly, ?_, ?_, ?_⟩
  · rw [collapse_bridge]
    intro hsub
    exact dedupe_noTwoSp _ (subOf_stripSp hsub)
  · intro c hc
    have h1 : (c == ' ') = false := by
      rw [collapse_bridge] at hc
      exact stripSp_head_nsp hc
    by_contra hne
    have hws : isWs c = true := by
      cases hx : isWs c with
      | false => exact absurd hx hne
      | true => rfl
    have hcm : c ∈ collapseWs w := head_mem hc
    have := hwsOnly c hcm hws
    rw [this] at h1
    simp at h1
  · intro c hc
    constructor
    · have h1 : (c == ' ') = false := by
        rw [collapse_bridge] at hc
        exact stripSp_last_nsp hc
      by_contra hne
      have hws : isWs c = true := by
        cases hx : isWs c with
        | false => exact absurd hx hne
        | true => rfl
      have hcm : c ∈ collapseWs w := getLast_mem_of hc
      have := hwsOnly c hcm hws
      rw [this] at h1
      simp at h1
    · cases hg : w.getLast? with
      | none =>
        have hw0 : w = [] := by
          cases w with
          | nil => rfl
          | cons a t => rw [List.getLast?_eq_head?_reverse] at hg; simp at hg
        rw [hw0] at hc
        have : collapseWs [] = [] := rfl
        rw [this] at hc
        simp at hc
      | some c₀ =>
        obtain ⟨h0ws, h0semi⟩ := hl c₀ hg
        have h2 := collapse_getLast hg h0ws
        rw [h2] at hc
        rw [← Option.some.inj hc]
        exact h0semi

theorem leftStripped_stripStr (x : Str) :
    List.dropWhile isWs (stripStr x) = stripStr x := by
  cases hc : stripStr x with
  | nil => rfl
  | cons a t =>
    have ha : isWs a = false := stripStr_head (by rw [hc]; rfl)
    rw [List.dropWhile_cons, if_neg (by simp [ha])]

theorem rightStripped_stripStr (x : Str) : dropRW isWs (stripStr x) = stripStr x :=
  dropRW_eq_self (fun c hc => stripStr_last hc)

theorem selCut_idem (s : Str) : selCut (selCut s) = selCut s := by
  by_cases h1 : startsWithL s selectU = true
  · have he : selCut s = s := by rw [selCut, if_pos h1]
    rw [he]
    exact he
  · cases hf : findSub (upStr s) selectU with
    | none =>
      have he : selCut s = s := by rw [selCut, if_neg h1, hf]
      rw [he]
      exact he
    | some p =>
      have he : selCut s = s.drop p := by rw [selCut, if_neg h1, hf]
      rw [he]
      obtain ⟨u, v, huv, hlu⟩ := findSub_some_occAt hf
      have hdropU : upStr (s.drop p) = selectU ++ v := by
        have h2 : upStr (s.drop p) = (upStr s).drop p := by
          rw [upStr, upStr, List.map_drop]
        rw [h2, huv, List.append_assoc]
        exact List.drop_left' hlu
      by_cases h3 : startsWithL (s.drop p) selectU = true
      · rw [selCut, if_pos h3]
      · have hfind2 : findSub (upStr (s.drop p)) selectU = some 0 := by
          apply findSub_eq_some_of
          · exact ⟨[], v, by rw [hdropU]; rfl, rfl⟩
          · intro j hj
            exact absurd hj (Nat.not_lt_zero j)
        rw [selCut, if_neg h3, hfind2]
        rfl

theorem selCut_NF_inv {x : Str} (hx : NF x) (hi : tickFree x ∨ wInv x) :
    NF (selCut x) ∧ (tickFree (selCut x) ∨ wInv (selCut x)) := by
  by_cases h1 : startsWithL x selectU = true
  · have he : selCut x = x := by rw [selCut, if_pos h1]
    rw [he]
    exact ⟨hx, hi⟩
  · cases hf : findSub (upStr x) selectU with
    | none =>
      have he : selCut x = x := by rw [selCut, if_neg h1, hf]
      rw [he]
      exact ⟨hx, hi⟩
    | some p =>
      have he : selCut x = x.drop p := by rw [selCut, if_neg h1, hf]
      rw [he]
      have hocc := findSub_some_occAt hf
      have hplen : p + 6 ≤ x.length := by
        obtain ⟨u, v, huv, hlu⟩ := hocc
        have hl2 := congrArg List.length huv
        rw [upStr, List.length_map] at hl2
        simp only [List.length_append] at hl2
        have h6 : selectU.length = 6 := rfl
        omega
      constructor
      · obtain ⟨hws, hn2, hh, hlst⟩ := hx
        refine ⟨?_, ?_, ?_, ?_⟩
        · intro c hc hcw
          apply hws c ?_ hcw
          have hxtd := List.take_append_drop p x
          rw [← hxtd]
          exact List.mem_append_right _ hc
        · intro hsub
          exact hn2 (subOf_of_drop hsub)
        · intro c hc
          obtain ⟨u, v, huv, hlu⟩ := hocc
          have h2 : upStr (x.drop p) = selectU ++ v := by
            have h3 : upStr (x.drop p) = (upStr x).drop p := by
              rw [upStr, upStr, List.map_drop]
            rw [h3, huv, List.append_assoc]
            exact List.drop_left' hlu
          have h4 : (upStr (x.drop p)).head? = some 'S' := by
            rw [h2]
            rfl
          have h5 : (upStr (x.drop p)).head? = (x.drop p).head?.map upChar := by
            rw [upStr]
            exact List.head?_map upChar (x.drop p)
          rw [h5, hc] at h4
          have h6 : upChar c = 'S' := by simpa using h4
          by_contra hcw
          have hwsc : isWs c = true := by
            cases hxx : isWs c with
            | false => exact absurd hxx hcw
            | true => rfl
          have h7 : upChar c = c := by
            have h8 := hwsc
            rw [isWs] at h8
            simp only [Bool.or_eq_true, beq_iff_eq] at h8
            rcases h8 with ((((h | h) | h) | h) | h) | h <;> subst h <;> decide
          rw [h7] at h6
          rw [h6] at hwsc
          exact absurd hwsc (by decide)
        · intro c hc
          apply hlst
          have hne : x.drop p ≠ [] := by
            intro h0
            have h02 := congrArg List.length h0
            rw [List.length_drop] at h02
            simp only [List.length_nil] at h02
            omega
          have hxtd := List.take_append_drop p x
          rw [← hxtd, getLast_append_of_ne hne]
          exact hc
      · rcases hi with hi | hi
        · left
          intro hsub
          exact hi (subOf_of_drop hsub)
        · obtain ⟨u, v, huv, hv, hu⟩ := hi
          have hnotmid : ∀ d, d < 6 → p ≠ u.length + d := by
            intro d hd hpd
            rw [hpd] at hocc
            have h8 : occAt ((upStr x).drop u.length) selectU d := occAt_of_drop hocc
            have h9 : (upStr x).drop u.length = upStr tickSql ++ upStr v := by
              rw [huv, upStr, List.map_append, List.map_append,
                List.drop_append_of_le_length (by
                  rw [List.length_append, List.length_map]
                  omega),
                List.drop_left' (by rw [List.length_map])]
              rfl
            rw [h9] at h8
            rw [show upStr tickSql = '`' :: '`' :: '`' :: 'S' :: 'Q' :: 'L' :: [] from by
              decide] at h8
            have h82 : occAt ('`' :: '`' :: '`' :: 'S' :: 'Q' :: 'L' :: upStr v) selectU d := h8
            obtain ⟨u2, v2, huv2, hlu2⟩ := h82
            have hst : startsWithL
                (('`' :: '`' :: '`' :: 'S' :: 'Q' :: 'L' :: upStr v).drop d) selectU
                = true := by
              rw [huv2, List.append_assoc, List.drop_left' hlu2]
              exact startsWithL_append _ _
            interval_cases d <;> simp [startsWithL, selectU] at hst
          rcases Nat.lt_or_ge p u.length with hp | hp
          · right
            refine ⟨u.drop p, v, ?_, hv, ?_⟩
            · rw [huv, List.drop_append_of_le_length (by rw [List.length_append]; omega),
                List.drop_append_of_le_length (by omega)]
            · intro hsub
              apply hu
              have h10 : u.drop p ++ tickSq5 = (u ++ tickSq5).drop p := by
                rw [List.drop_append_of_le_length (by omega)]
              rw [h10] at hsub
              exact subOf_of_drop hsub
          · have hp6 : u.length + 6 ≤ p := by
              rcases Nat.lt_or_ge p (u.length + 6) with hlt | hge
              · exact absurd (show p = u.length + (p - u.length) from by omega)
                  (hnotmid (p - u.length) (by omega))
              · exact hge
            left
            intro hsub
            have h11 : x.drop p = v.drop (p - (u.length + 6)) := by
              rw [huv, List.drop_append_eq_append_drop,
                List.drop_eq_nil_of_le (by
                  rw [List.length_append]
                  have h6 : tickSql.length = 6 := rfl
                  omega),
                List.nil_append]
              congr 1
              rw [List.length_append]
              have h6 : tickSql.length = 6 := rfl
              omega
            rw [h11] at hsub
            exact hv (subOf_of_drop hsub)

/-- With the character-wise ASCII case mapping, the cleanup transform is
idempotent: every first-pass output is a fixed point of every stage. -/
theorem cleanSqlResponse_idem (s : Str) :
    cleanSqlResponse (cleanSqlResponse s) = cleanSqlResponse s := by
  obtain ⟨k, hk, hkeq, hkmem, hsemi, hlastws⟩ :=
    dropSemis_props (stripStr (fences (stripStr s)))
      (leftStripped_stripStr _) (rightStripped_stripStr _)
  have hinvz : tickFree (stripStr (fences (stripStr s))) ∨
      wInv (stripStr (fences (stripStr s))) := by
    rcases fences_inv (stripStr s) with h | h
    · exact Or.inl (stripStr_tickFree h)
    · exact Or.inr (stripStr_wInv h)
  have hinvw : tickFree (dropSemis (stripStr (fences (stripStr s)))) ∨
      wInv (dropSemis (stripStr (fences (stripStr s)))) := by
    rw [hkeq]
    rcases hinvz with h | h
    · exact Or.inl (fun hsub => h (subOf_of_take hsub))
    · exact Or.inr (wInv_take_of_clean h hkmem)
  have hlw : ∀ c, (dropSemis (stripStr (fences (stripStr s)))).getLast? = some c →
      isWs c = false ∧ ¬ c = ';' := by
    intro c hc
    refine ⟨hlastws c hc, ?_⟩
    have h2 : endsWithSemi (dropSemis (stripStr (fences (stripStr s)))) = (c == ';') := by
      rw [endsWithSemi, hc]
    rw [h2] at hsemi
    intro hcs
    rw [hcs] at hsemi
    simp at hsemi
  have hNFx : NF (collapseWs (dropSemis (stripStr (fences (stripStr s))))) :=
    collapseWs_NF hlw
  have hinvx : tickFree (collapseWs (dropSemis (stripStr (fences (stripStr s))))) ∨
      wInv (collapseWs (dropSemis (stripStr (fences (stripStr s))))) := by
    rcases hinvw with h | h
    · exact Or.inl (collapseWs_tickFree h)
    · exact Or.inr (collapseWs_wInv h)
  have hpc : proseCut (collapseWs (dropSemis (stripStr (fences (stripStr s)))))
      = collapseWs (dropSemis (stripStr (fences (stripStr s)))) := nf_proseCut hNFx
  have hy : cleanSqlResponse s
      = selCut (collapseWs (dropSemis (stripStr (fences (stripStr s))))) := by
    rw [cleanSqlResponse, hpc]
  obtain ⟨hNFy, hinvy⟩ := selCut_NF_inv hNFx hinvx
  rw [hy, cleanSqlResponse, nf_stripStr hNFy, fences_eq_self hinvy, nf_stripStr hNFy,
    nf_dropSemis hNFy, nf_collapseWs hNFy, nf_proseCut hNFy, selCut_idem]

theorem mem_of_take {s : Str} {k : Nat} {c : Char} (h : c ∈ s.take k) : c ∈ s := by
  have h2 := List.take_append_drop k s
  rw [← h2]
  exact List.mem_append_left _ h

theorem mem_of_drop {s : Str} {k : Nat} {c : Char} (h : c ∈ s.drop k) : c ∈ s := by
  have h2 := List.take_append_drop k s
  rw [← h2]
  exact List.mem_append_right _ h

theorem mem_of_stripStr {s : Str} {c : Char} (h : c ∈ stripStr s) : c ∈ s := by
  obtain ⟨w1, hw1, -⟩ := dropWhile_decomp isWs (dropRW isWs s)
  rw [← stripStr] at hw1
  obtain ⟨w2, hw2, -⟩ := dropRW_decomp isWs s
  rw [hw2, hw1]
  exact List.mem_append_left _ (List.mem_append_right _ h)

theorem mem_of_removeAllFuel : ∀ n : Nat, ∀ s pat : Str, ∀ c : Char,
    c ∈ removeAllFuel n s pat → c ∈ s := by
  intro n
  induction n with
  | zero =>
    intro s pat c h
    rw [removeAllFuel] at h
    exact h
  | succ n ih =>
    intro s pat c h
    cases hf : findSub s pat with
    | none =>
      have heq : removeAllFuel (n + 1) s pat = s := by rw [removeAllFuel, hf]
      rw [heq] at h
      exact h
    | some i =>
      have heq : removeAllFuel (n + 1) s pat
          = s.take i ++ removeAllFuel n (s.drop (i + pat.length)) pat := by
        rw [removeAllFuel, hf]
      rw [heq] at h
      rcases List.mem_append.mp h with h1 | h2
      · exact mem_of_take h1
      · exact mem_of_drop (ih _ _ _ h2)

theorem mem_of_removeAll {s pat : Str} {c : Char} (h : c ∈ removeAll s pat) : c ∈ s := by
  rw [removeAll] at h
  exact mem_of_removeAllFuel _ _ _ _ h

theorem mem_of_fences {s : Str} {c : Char} (h : c ∈ fences s) : c ∈ s := by
  by_cases h1 : hasSub s tickSql = true
  · cases hp : findSub s tickSql with
    | none => simp [hasSub, hp] at h1
    | some p =>
      have hstep : fences s = (match findSub (s.drop (p + 6)) ticks with
          | some e => (s.drop (p + 6)).take e
          | none => s) := by
        rw [fences, if_pos h1, hp]
      cases he : findSub (s.drop (p + 6)) ticks with
      | some e =>
        rw [he] at hstep
        have hstep2 : fences s = (s.drop (p + 6)).take e := by rw [hstep]
        rw [hstep2] at h
        exact mem_of_drop (mem_of_take h)
      | none =>
        rw [he] at hstep
        have hstep2 : fences s = s := by rw [hstep]
        rw [hstep2] at h
        exact h
  · by_cases h2 : hasSub s ticks = true
    · have hstep : fences s = removeAll (removeAll s tickSql) ticks := by
        rw [fences, if_neg h1, if_pos h2]
      rw [hstep] at h
      exact mem_of_removeAll (mem_of_removeAll h)
    · have hstep : fences s = s := by
        rw [fences, if_neg h1, if_neg h2]
      rw [hstep] at h
      exact h

theorem mem_of_dropSemisFuel : ∀ n : Nat, ∀ s : Str, ∀ c : Char,
    c ∈ dropSemisFuel n s → c ∈ s := by
  intro n
  induction n with
  | zero =>
    intro s c h
    rw [dropSemisFuel] at h
    exact h
  | succ n ih =>
    intro s c h
    rw [dropSemisFuel] at h
    by_cases hsemi : endsWithSemi s = true
    · rw [if_pos hsemi] at h
      have h3 : c ∈ s.dropLast := mem_of_stripStr (ih _ _ h)
      exact List.dropLast_subset s h3
    · rw [if_neg hsemi] at h
      exact h

theorem mem_of_dropSemis {s : Str} {c : Char} (h : c ∈ dropSemis s) : c ∈ s := by
  rw [dropSemis] at h
  exact mem_of_dropSemisFuel _ _ _ h

theorem mem_of_collapseWs {s : Str} {c : Char} (h : c ∈ collapseWs s) :
    c = ' ' ∨ c ∈ s := by
  rw [collapse_bridge] at h
  have h1 := dedupe_mem (mem_of_stripSp h)
  obtain ⟨y, hy, rfl⟩ := List.mem_map.mp h1
  by_cases hyw : isWs y = true
  · left
    rw [wsToSp, if_pos hyw]
  · right
    rw [wsToSp, if_neg hyw]
    exact hy

theorem mem_of_splitNlAux : ∀ s cur w : Str, w ∈ splitNlAux s cur →
    ∀ c ∈ w, c ∈ cur ∨ c ∈ s := by
  intro s
  induction s with
  | nil =>
    intro cur w hw c hc
    rw [splitNlAux] at hw
    rw [List.mem_singleton] at hw
    subst hw
    rw [List.mem_reverse] at hc
    exact Or.inl hc
  | cons a t ih =>
    intro cur w hw c hc
    rw [splitNlAux] at hw
    by_cases ha : (a == '\n') = true
    · rw [if_pos ha] at hw
      rcases List.mem_cons.mp hw with hw1 | hw2
      · subst hw1
        rw [List.mem_reverse] at hc
        exact Or.inl hc
      · rcases ih [] w hw2 c hc with h0 | h0
        · simp at h0
        · exact Or.inr (List.mem_cons_of_mem _ h0)
    · rw [if_neg ha] at hw
      rcases ih (a :: cur) w hw c hc with h0 | h0
      · rcases List.mem_cons.mp h0 with rfl | h0b
        · exact Or.inr (List.mem_cons_self _ _)
        · exact Or.inl h0b
      · exact Or.inr (List.mem_cons_of_mem _ h0)

theorem mem_of_joinWords : ∀ L : List Str, ∀ c : Char, c ∈ joinWords L →
    c = ' ' ∨ ∃ w ∈ L, c ∈ w := by
  intro L
  induction L with
  | nil =>
    intro c h
    rw [joinWords] at h
    simp at h
  | cons w ws ih =>
    intro c h
    cases ws with
    | nil =>
      have h2 : c ∈ w := h
      exact Or.inr ⟨w, List.mem_cons_self _ _, h2⟩
    | cons w2 ws2 =>
      have heq : joinWords (w :: w2 :: ws2) = w ++ ' ' :: joinWords (w2 :: ws2) := rfl
      rw [heq] at h
      rcases List.mem_append.mp h with h1 | h2
      · exact Or.inr ⟨w, List.mem_cons_self _ _, h1⟩
      · rcases List.mem_cons.mp h2 with rfl | h3
        · exact Or.inl rfl
        · rcases ih c h3 with h4 | ⟨w3, hw3, hc3⟩
          · exact Or.inl h4
          · exact Or.inr ⟨w3, List.mem_cons_of_mem _ hw3, hc3⟩

theorem mem_of_proseCut {s : Str} {c : Char} (h : c ∈ proseCut s) :
    c = ' ' ∨ c ∈ s := by
  rw [proseCut] at h
  by_cases hcond : (hasSub s nlnl || hasSub s dotSp) = true
  · rw [if_pos hcond] at h
    have hz : c ∈ (match (splitNl s).findIdx?
        (fun l => startsWithL (upStr (stripStr l)) selectU) with
        | some i => joinWords ((splitNl s).drop i)
        | none => s) := h
    cases hidx : (splitNl s).findIdx? (fun l => startsWithL (upStr (stripStr l)) selectU)
        with
    | none =>
      rw [hidx] at hz
      have h2 : c ∈ s := hz
      exact Or.inr h2
    | some i =>
      rw [hidx] at hz
      have h2 : c ∈ joinWords ((splitNl s).drop i) := hz
      rcases mem_of_joinWords _ c h2 with h1 | ⟨w, hw, hcw⟩
      · exact Or.inl h1
      · have hw2 : w ∈ splitNl s := by
          have h3 := List.take_append_drop i (splitNl s)
          rw [← h3]
          exact List.mem_append_right _ hw
        rcases mem_of_splitNlAux s [] w hw2 c hcw with h0 | h0
        · simp at h0
        · exact Or.inr h0
  · rw [if_neg hcond] at h
    exact Or.inr h

theorem mem_of_selCut {s : Str} {c : Char} (h : c ∈ selCut s) : c ∈ s := by
  rw [selCut] at h
  by_cases h1 : startsWithL s selectU = true
  · rw [if_pos h1] at h
    exact h
  · rw [if_neg h1] at h
    cases hf : findSub (upStr s) selectU with
    | none =>
      rw [hf] at h
      have h2 : c ∈ s := h
      exact h2
    | some p =>
      rw [hf] at h
      have h2 : c ∈ s.drop p := h
      exact mem_of_drop h2

theorem upStrFull_eq_upStr : ∀ s : Str, (∀ c ∈ s, c.toNat < 128) →
    upStrFull s = upStr s := by
  intro s
  induction s with
  | nil =>
    intro h
    rfl
  | cons a t ih =>
    intro h
    show ((a :: t).map upCharFull).flatten = (a :: t).map upChar
    rw [List.map_cons, List.map_cons, List.flatten_cons]
    have ih2 := ih (fun c hc => h c (List.mem_cons_of_mem _ hc))
    rw [upStrFull, upStr] at ih2
    rw [ih2, upCharFull, if_neg ?_]
    · rfl
    · intro ha
      have h2 := h a (List.mem_cons_self _ _)
      rw [ha] at h2
      exact absurd h2 (by decide)

theorem selCutFull_eq_selCut {s : Str} (h : ∀ c ∈ s, c.toNat < 128) :
    selCutFull s = selCut s := by
  rw [selCutFull, selCut, upStrFull_eq_upStr s h]

theorem ascii_clean_prefix {s : Str} (h : ∀ c ∈ s, c.toNat < 128) :
    ∀ c ∈ proseCut (collapseWs (dropSemis (stripStr (fences (stripStr s))))),
      c.toNat < 128 := by
  intro c hc
  rcases mem_of_proseCut hc with rfl | hc2
  · decide
  · rcases mem_of_collapseWs hc2 with rfl | hc3
    · decide
    · exact h c (mem_of_stripStr (mem_of_fences (mem_of_stripStr (mem_of_dropSemis hc3))))

/-- C8 counterexample: the claim asserts idempotence for every input, but with
Python's full case mapping, where `'ß'` upper-cases to `"SS"`, the index of
`SELECT` found in the longer upper-cased text overshoots in the original text,
and a second pass cuts further: one pass leaves `"electßselect x"`, two passes
leave `"elect x"`. -/
theorem c8_counterexample :
    cleanSqlResponseFull (cleanSqlResponseFull (lit "ßselectßselect x"))
      ≠ cleanSqlResponseFull (lit "ßselectßselect x") := by decide

/-- C8 (amended): on inputs all of whose characters are ASCII — where Python's
case mapping is character-wise and length-preserving — the cleanup transform is
idempotent; an input with a length-expanding character such as `'ß'` before the
`SELECT` defeats idempotence, because the find index computed in the upper-cased
text slices the original text. -/
theorem c8_ascii_idempotent (s : Str) (h : ∀ c ∈ s, c.toNat < 128) :
    cleanSqlResponseFull (cleanSqlResponseFull s) = cleanSqlResponseFull s := by
  have hX := ascii_clean_prefix h
  have e1 : cleanSqlResponseFull s = cleanSqlResponse s := by
    rw [cleanSqlResponseFull, cleanSqlResponse, selCutFull_eq_selCut hX]
  have h2 : ∀ c ∈ cleanSqlResponse s, c.toNat < 128 := by
    intro c hc
    rw [cleanSqlResponse] at hc
    exact hX c (mem_of_selCut hc)
  have hX2 := ascii_clean_prefix h2
  have e2 : cleanSqlResponseFull (cleanSqlResponse s)
      = cleanSqlResponse (cleanSqlResponse s) := by
    rw [cleanSqlResponseFull, selCutFull_eq_selCut hX2]
    rfl
  rw [e1, e2, cleanSqlResponse_idem]

theorem c8_ascii_idempotent_witness :
    (∀ c ∈ lit "```sql\nSELECT x;\n```", c.toNat < 128) ∧
    cleanSqlResponseFull (cleanSqlResponseFull (lit "```sql\nSELECT x;\n```"))
      = cleanSqlResponseFull (lit "```sql\nSELECT x;\n```") :=
  ⟨by decide, c8_ascii_idempotent _ (by decide)⟩
